import Mathlib

/-!
# The `logger` package: a process-wide logging facade

Shallow embedding of `logger.go`.  The three package-level variables of the
package (`log`, `doOnce`, `DefaultConfig`) are the fields of `Proc`,
together with the list of externally visible events produced so far.  Every
function of the package becomes a function from a `Proc` to the `Proc` after
the call and the way the call ended.

What lies outside `logger.go` is a parameter (`World`): the process
environment, the constructor `newZapLogger` and the `WithFields` method of the
backing loggers.  Their answers may depend on everything that happened before,
so two constructions with the same configuration may yield different loggers.

The last part puts several goroutines inside leveled functions at once: each
step is one access to a shared variable, `doOnce` is a done flag and a mutex,
and `log` is the two words of an interface value.
-/

namespace logger

/-! ## Constants and plain data -/

/-- Fields Type to pass when we want to call WithFields: `map[string]interface{}`,
kept as an association list whose values range over an arbitrary type. -/
abbrev Fields (V : Type) := List (String × V)

/-- Debug has verbose message -/
def Debug : String := "debug"

/-- Info: the source comment calls it the default log level, while the declared
`DefaultConfig` uses `Debug`. -/
def Info : String := "info"

/-- Warn is for logging messages about possible issues -/
def Warn : String := "warn"

/-- Error is for logging errors -/
def Error : String := "error"

/-- Fatal is for logging fatal messages -/
def Fatal : String := "fatal"

/-- The only backing kind: `InstanceZapLogger int = iota` -/
def InstanceZapLogger : Int := 0

/-- Name of the environment variable read by the lazy path -/
def EnvKeyEnv : String := "env"

/-- Go `error` values: the package sentinel `errInvalidLoggerInstance`, or any
other error, told apart by its message. -/
inductive GoError where
  | errInvalidLoggerInstance
  | other (msg : String)
deriving DecidableEq, Repr

/-- The `Error()` method; the sentinel was made by `errors.New("Invalid logger instance")`. -/
def GoError.Error : GoError → String
  | .errInvalidLoggerInstance => "Invalid logger instance"
  | .other msg => msg

/-- LoggerConfig stores the config for the logger -/
structure LoggerConfig where
  EnableConsole : Bool
  ConsoleJSONFormat : Bool
  ConsoleLevel : String
  EnableFile : Bool
  FileJSONFormat : Bool
  FileLevel : String
  FileLocation : String
deriving DecidableEq, Repr

/-- The declared value of the package variable `DefaultConfig`; the fields the
composite literal leaves out have Go's zero values. -/
def DefaultConfig : LoggerConfig :=
  { EnableConsole := true
    ConsoleLevel := Debug
    ConsoleJSONFormat := false
    EnableFile := false
    FileJSONFormat := false
    FileLevel := ""
    FileLocation := "" }

/-! ## The Logger interface -/

/-- One invocation of a method of the `Logger` interface that returns nothing,
with its arguments (`W` and `R` stand for `http.ResponseWriter` and
`*http.Request`, `V` for `interface{}`). -/
inductive Call (V W R : Type) where
  | Debugf (format : String) (args : List V)
  | Infof (format : String) (args : List V)
  | Warnf (format : String) (args : List V)
  | Errorf (format : String) (args : List V)
  | Fatalf (format : String) (args : List V)
  | Panicf (format : String) (args : List V)
  | ChangeLogLevel (w : W) (r : R)
deriving DecidableEq, Repr

/-- How a call into a backing logger ends. -/
inductive Completion where
  | returns
  | exits
  | panics
deriving DecidableEq, Repr

/-- Modelled from the spec: the methods of the backing Logger, whose
implementation is not part of `logger.go`.  Section 4.1: `debugf/infof/warnf/errorf`
emit and return, `changeLogLevel` answers the request and returns, `fatalf`
emits and terminates the process, `panicf` emits and raises a panic. -/
def Call.completion {V W R : Type} : Call V W R → Completion
  | .Fatalf _ _ => .exits
  | .Panicf _ _ => .panics
  | _ => .returns

/-- Externally visible events, in the order in which the package causes them. -/
inductive Event (L V W R : Type) where
  | getenv (key : String)
  | construct (config : LoggerConfig)
  | call (l : L) (c : Call V W R)
  | withFields (l : L) (keyValues : Fields V)
  | stdFatal (msg : String)
deriving DecidableEq, Repr

/-! ## Process state -/

/-- State of a `sync.Once`: never used, executing its function, or done. -/
inductive OnceState where
  | unused
  | running
  | done
deriving DecidableEq, Repr

/-- The package-level variables and the events so far.  `log = none` is the
nil interface value. -/
structure Proc (L V W R : Type) where
  log : Option L
  doOnce : OnceState
  DefaultConfig : LoggerConfig
  trace : List (Event L V W R)
deriving DecidableEq, Repr

/-- Ways in which a call does not return to its caller. -/
inductive Abort where
  | exit
  | panic
  | nilDeref
  | deadlock
  | outOfFuel
deriving DecidableEq, Repr

/-- Result of a call: a returned value or an abnormal ending. -/
inductive Outcome (α : Type) where
  | ok (a : α)
  | abort (a : Abort)
deriving DecidableEq, Repr

/-- What `logger.go` uses but does not define. -/
structure World (L V W R : Type) where
  environ : String → Option String
  newZapLogger : List (Event L V W R) → LoggerConfig → Option L × Option GoError
  withFields : List (Event L V W R) → L → Fields V → Option L

variable {L V W R : Type}

/-- The function `os.Getenv`: the value of the variable, empty when it is not set. -/
def World.Getenv (w : World L V W R) (key : String) : String :=
  (w.environ key).getD ""

/-- The process state before any function of the package has run. -/
def Proc.initial : Proc L V W R :=
  { log := none, doOnce := .unused, DefaultConfig := logger.DefaultConfig, trace := [] }

/-- Append an event. -/
def Proc.emit (s : Proc L V W R) (e : Event L V W R) : Proc L V W R :=
  { s with trace := s.trace ++ [e] }

/-! ## The functions of the package -/

/-- NewLogger builds the backing logger of the given kind and stores it in `log`;
what it returns is only the error. -/
def NewLogger (w : World L V W R) (config : LoggerConfig) (loggerInstance : Int)
    (s : Proc L V W R) : Proc L V W R × Option GoError :=
  if loggerInstance = InstanceZapLogger then
    let r := w.newZapLogger s.trace config
    let s1 := s.emit (.construct config)
    match r.2 with
    | some err => (s1, some err)
    | none => ({ s1 with log := r.1 }, none)
  else
    (s, some .errInvalidLoggerInstance)

/-- What the caller of a method of a backing logger sees of its completion. -/
def Completion.outcome : Completion → Outcome Unit
  | .returns => .ok ()
  | .exits => .abort .exit
  | .panics => .abort .panic

/-- The statement `log.M(args...)`: a method call through the interface value
`log`, a nil dereference when `log` is nil. -/
def invoke (c : Call V W R) (s : Proc L V W R) : Proc L V W R × Outcome Unit :=
  match s.log with
  | none => (s, .abort .nilDeref)
  | some l => (s.emit (.call l c), c.completion.outcome)

/-- The method `Do` of `sync.Once` on the variable `doOnce`, for one goroutine:
the function runs only on the first use, a panic in it still marks the Once as
done, and a call from inside the function waits for itself forever. -/
def onceDo (f : Proc L V W R → Proc L V W R × Outcome Unit) (s : Proc L V W R) :
    Proc L V W R × Outcome Unit :=
  match s.doOnce with
  | .done => (s, .ok ())
  | .running => (s, .abort .deadlock)
  | .unused =>
    let r := f { s with doOnce := .running }
    match r.2 with
    | .ok _ => ({ r.1 with doOnce := .done }, .ok ())
    | .abort .panic => ({ r.1 with doOnce := .done }, .abort .panic)
    | .abort .nilDeref => ({ r.1 with doOnce := .done }, .abort .nilDeref)
    | .abort a => (r.1, .abort a)

/-- The common body of `Debugf` ... `ChangeLogLevel`:
`if log == nil { initLogger() }; log.M(args...)`. -/
def lazily (init : Proc L V W R → Proc L V W R × Outcome Unit) (c : Call V W R)
    (s : Proc L V W R) : Proc L V W R × Outcome Unit :=
  let r := if s.log.isNone then init s else (s, .ok ())
  match r.2 with
  | .ok _ => invoke c r.1
  | .abort a => (r.1, .abort a)

/-- The function handed to `doOnce.Do` in `initLogger`; `Infof` is the package
function of that name. -/
def initLoggerBody (w : World L V W R)
    (Infof : String → List V → Proc L V W R → Proc L V W R × Outcome Unit)
    (s : Proc L V W R) : Proc L V W R × Outcome Unit :=
  let s1 := s.emit (.getenv EnvKeyEnv)
  let s2 :=
    if w.Getenv EnvKeyEnv = "prod" then
      { s1 with DefaultConfig := { s1.DefaultConfig with ConsoleLevel := Warn } }
    else s1
  let r := NewLogger w s2.DefaultConfig InstanceZapLogger s2
  match r.2 with
  | some err =>
    (r.1.emit (.stdFatal ("Could not instantiate log " ++ err.Error)), .abort .exit)
  | none => Infof "Logger created successfuly" [] r.1

/-- The function `initLogger`.  It and `Infof` call each other; the first
argument bounds the depth of that nesting. -/
def initLogger (w : World L V W R) : Nat → Proc L V W R → Proc L V W R × Outcome Unit
  | 0, s => (s, .abort .outOfFuel)
  | fuel + 1, s =>
    onceDo (initLoggerBody w (fun format args => lazily (initLogger w fuel) (.Infof format args))) s

/-- Package function `Debugf` -/
def Debugf (w : World L V W R) (fuel : Nat) (format : String) (args : List V)
    (s : Proc L V W R) : Proc L V W R × Outcome Unit :=
  lazily (initLogger w fuel) (.Debugf format args) s

/-- Package function `Infof` -/
def Infof (w : World L V W R) (fuel : Nat) (format : String) (args : List V)
    (s : Proc L V W R) : Proc L V W R × Outcome Unit :=
  lazily (initLogger w fuel) (.Infof format args) s

/-- Package function `Warnf` -/
def Warnf (w : World L V W R) (fuel : Nat) (format : String) (args : List V)
    (s : Proc L V W R) : Proc L V W R × Outcome Unit :=
  lazily (initLogger w fuel) (.Warnf format args) s

/-- Package function `Errorf` -/
def Errorf (w : World L V W R) (fuel : Nat) (format : String) (args : List V)
    (s : Proc L V W R) : Proc L V W R × Outcome Unit :=
  lazily (initLogger w fuel) (.Errorf format args) s

/-- Package function `Fatalf` -/
def Fatalf (w : World L V W R) (fuel : Nat) (format : String) (args : List V)
    (s : Proc L V W R) : Proc L V W R × Outcome Unit :=
  lazily (initLogger w fuel) (.Fatalf format args) s

/-- Package function `Panicf` -/
def Panicf (w : World L V W R) (fuel : Nat) (format : String) (args : List V)
    (s : Proc L V W R) : Proc L V W R × Outcome Unit :=
  lazily (initLogger w fuel) (.Panicf format args) s

/-- Package function `ChangeLogLevel` -/
def ChangeLogLevel (w : World L V W R) (fuel : Nat) (rw : W) (r : R)
    (s : Proc L V W R) : Proc L V W R × Outcome Unit :=
  lazily (initLogger w fuel) (.ChangeLogLevel rw r) s

/-- Package function `WithFields`: `return log.WithFields(keyValues)`, with no
check of `log`. -/
def WithFields (w : World L V W R) (keyValues : Fields V) (s : Proc L V W R) :
    Proc L V W R × Outcome (Option L) :=
  match s.log with
  | none => (s, .abort .nilDeref)
  | some l => (s.emit (.withFields l keyValues), .ok (w.withFields s.trace l keyValues))

/-- The package function that forwards to the given method of the interface. -/
def facade (w : World L V W R) (fuel : Nat) : Call V W R → Proc L V W R →
    Proc L V W R × Outcome Unit
  | .Debugf format args => Debugf w fuel format args
  | .Infof format args => Infof w fuel format args
  | .Warnf format args => Warnf w fuel format args
  | .Errorf format args => Errorf w fuel format args
  | .Fatalf format args => Fatalf w fuel format args
  | .Panicf format args => Panicf w fuel format args
  | .ChangeLogLevel rw r => ChangeLogLevel w fuel rw r

/-! ## Sequences of calls -/

/-- A call of an exported function of the package. -/
inductive Op (V W R : Type) where
  | NewLogger (config : LoggerConfig) (loggerInstance : Int)
  | facade (c : Call V W R)
  | WithFields (keyValues : Fields V)
deriving DecidableEq, Repr

/-- Whether the call is one of `Debugf` ... `ChangeLogLevel` or `WithFields`. -/
def Op.isUse : Op V W R → Bool
  | .NewLogger _ _ => false
  | _ => true

/-- Run one exported function, dropping the value it returns. -/
def step (w : World L V W R) (fuel : Nat) : Op V W R → Proc L V W R →
    Proc L V W R × Outcome Unit
  | .NewLogger config loggerInstance, s => ((NewLogger w config loggerInstance s).1, .ok ())
  | .facade c, s => facade w fuel c s
  | .WithFields keyValues, s =>
    match (WithFields w keyValues s).2 with
    | .ok _ => ((WithFields w keyValues s).1, .ok ())
    | .abort a => ((WithFields w keyValues s).1, .abort a)

/-- Run the calls one after the other in a single goroutine.  A panic is taken
to be recovered by the caller, who goes on with the next call; the run stops
when the process is gone. -/
def run (w : World L V W R) (fuel : Nat) : List (Op V W R) → Proc L V W R →
    Proc L V W R × Outcome Unit
  | [], s => (s, .ok ())
  | op :: ops, s =>
    match (step w fuel op s).2 with
    | .ok _ => run w fuel ops (step w fuel op s).1
    | .abort .panic => run w fuel ops (step w fuel op s).1
    | .abort .nilDeref => run w fuel ops (step w fuel op s).1
    | .abort a => ((step w fuel op s).1, .abort a)

/-- The event by which a call is handed to the logger `l`. -/
def Op.delegation (l : L) : Op V W R → List (Event L V W R)
  | .NewLogger _ _ => []
  | .facade c => [.call l c]
  | .WithFields keyValues => [.withFields l keyValues]

/-- The events by which a list of calls is handed to the logger `l`. -/
def delegations (l : L) : List (Op V W R) → List (Event L V W R)
  | [] => []
  | op :: ops => op.delegation l ++ delegations l ops

/-- The configuration that `initLogger` passes to `NewLogger` when its function runs. -/
def lazyConfig (w : World L V W R) (s : Proc L V W R) : LoggerConfig :=
  if w.Getenv EnvKeyEnv = "prod" then { s.DefaultConfig with ConsoleLevel := Warn }
  else s.DefaultConfig

/-- The configurations handed to the backing constructor, oldest first. -/
def constructed : List (Event L V W R) → List LoggerConfig
  | [] => []
  | .construct config :: t => config :: constructed t
  | _ :: t => constructed t

/-- The message that `initLogger` logs after a successful construction. -/
def createdMessage : Call V W R := .Infof "Logger created successfuly" []

/-- The state in which a successful first lazy start leaves the process, before
the call of the caller is handed on. -/
def lazyStarted (w : World L V W R) (s : Proc L V W R) (l : L) : Proc L V W R :=
  { log := some l
    doOnce := .done
    DefaultConfig := lazyConfig w s
    trace := s.trace ++
      [.getenv EnvKeyEnv, .construct (lazyConfig w s), .call l createdMessage] }

/-! ## Goroutines

Several goroutines, each inside one call of a leveled function, taking turns
one step at a time.  A step is one access to a shared variable.  The interface
variable `log` is two machine words, a type word and a data word; the
comparison `log == nil` looks at the type word, a method call through `log`
reads both, and the assignment `log = logger` writes both.  The leveled
functions read `log` outside of `doOnce`, so nothing orders these reads with
the write inside it; the Go memory model then allows a multiword value to be
seen half written, which is the mode `wordwise`.
-/

/-- How the assignment `log = logger` reaches memory: both words at once, or
the type word first and the data word in a later step. -/
inductive LogStore where
  | atomic
  | wordwise
deriving DecidableEq, Repr

/-- Where a goroutine stands inside its call of a leveled function. -/
inductive Pc (L : Type) where
  /-- the test `if log == nil` of the leveled function -/
  | check
  /-- in `Once.Do`: the load of the done flag, without the mutex -/
  | onceLoad
  /-- in `Once.doSlow`: `m.Lock()` -/
  | lock
  /-- in `Once.doSlow`: the load of the done flag, holding the mutex -/
  | recheck
  /-- the function of `initLogger`: `os.Getenv` and the change of `DefaultConfig` -/
  | env
  /-- in `NewLogger`: the call of `newZapLogger` -/
  | construct
  /-- in `NewLogger`: `log = logger`, the whole value or its type word -/
  | store (logger : Option L)
  /-- in `NewLogger`: `log = logger`, the data word -/
  | storeData (logger : Option L)
  /-- the test `if log == nil` of the `Infof` called by `initLogger` -/
  | nestedCheck
  /-- that `Infof` found `log` nil and waits for the mutex its goroutine holds -/
  | selfLock
  /-- the call `log.Infof("Logger created successfuly")` of `initLogger` -/
  | nestedCall
  /-- in `Once.doSlow`: the deferred store of the done flag -/
  | setDone
  /-- in `Once.doSlow`: the deferred `m.Unlock()` -/
  | unlock
  /-- the method call through `log` that ends the leveled function -/
  | call
  /-- the method call was made with a nil word -/
  | faulted
  /-- the leveled function is over -/
  | finished
deriving DecidableEq, Repr

/-- Events of a run of goroutines.  A method call through `log` is recorded with
the two words it read. -/
inductive GEvent (L V W R : Type) where
  | getenv (key : String)
  | construct (config : LoggerConfig)
  | created (typ : Option L) (data : Option L)
  | delegated (g : Nat) (typ : Option L) (data : Option L) (c : Call V W R)
  | stdFatal (msg : String)
deriving DecidableEq, Repr

/-- The event as the outside world saw it; a method call with a nil word
reaches no logger. -/
def GEvent.event : GEvent L V W R → Option (Event L V W R)
  | .getenv key => some (.getenv key)
  | .construct config => some (.construct config)
  | .created (some _) (some l) => some (.call l createdMessage)
  | .delegated _ (some _) (some l) c => some (.call l c)
  | .stdFatal msg => some (.stdFatal msg)
  | _ => none

/-- Whether the event is a call of the backing constructor. -/
def GEvent.isConstruct : GEvent L V W R → Bool
  | .construct _ => true
  | _ => false

/-- Whether the event is the message logged by `initLogger`. -/
def GEvent.isCreated : GEvent L V W R → Bool
  | .created _ _ => true
  | _ => false

/-- The variables shared by the goroutines: the two words of `log`, the done
flag and the owner of the mutex of `doOnce`, `DefaultConfig`, the events so far
and whether the process has exited. -/
structure Shared (L V W R : Type) where
  logType : Option L
  logData : Option L
  done : Bool
  holder : Option Nat
  DefaultConfig : LoggerConfig
  trace : List (GEvent L V W R)
  halted : Bool
deriving DecidableEq, Repr

/-- The end of a method call through `log` that read the words `typ` and `data`. -/
def afterCall (typ data : Option L) (c : Call V W R) (sh : Shared L V W R) :
    Shared L V W R × Pc L :=
  if typ.isSome && data.isSome then
    match c.completion with
    | .exits => ({ sh with halted := true }, .finished)
    | _ => (sh, .finished)
  else (sh, .faulted)

/-- One step of goroutine `g`, which is inside the leveled call `c` at the given
place. -/
def advance (mode : LogStore) (w : World L V W R) (g : Nat) (c : Call V W R)
    (sh : Shared L V W R) : Pc L → Shared L V W R × Pc L
  | .check => (sh, if sh.logType.isNone then .onceLoad else .call)
  | .onceLoad => (sh, if sh.done then .call else .lock)
  | .lock =>
    match sh.holder with
    | none => ({ sh with holder := some g }, .recheck)
    | some _ => (sh, .lock)
  | .recheck => (sh, if sh.done then .unlock else .env)
  | .env =>
    ({ sh with
        trace := sh.trace ++ [.getenv EnvKeyEnv]
        DefaultConfig :=
          if w.Getenv EnvKeyEnv = "prod" then { sh.DefaultConfig with ConsoleLevel := Warn }
          else sh.DefaultConfig }, .construct)
  | .construct =>
    match (w.newZapLogger (sh.trace.filterMap GEvent.event) sh.DefaultConfig).2 with
    | some err =>
      ({ sh with
          trace := sh.trace ++ [.construct sh.DefaultConfig,
            .stdFatal ("Could not instantiate log " ++ err.Error)]
          halted := true }, .construct)
    | none =>
      ({ sh with trace := sh.trace ++ [.construct sh.DefaultConfig] },
        .store (w.newZapLogger (sh.trace.filterMap GEvent.event) sh.DefaultConfig).1)
  | .store logger =>
    match mode with
    | .atomic => ({ sh with logType := logger, logData := logger }, .nestedCheck)
    | .wordwise => ({ sh with logType := logger }, .storeData logger)
  | .storeData logger => ({ sh with logData := logger }, .nestedCheck)
  | .nestedCheck => (sh, if sh.logType.isNone then .selfLock else .nestedCall)
  | .selfLock => (sh, .selfLock)
  | .nestedCall =>
    ({ sh with trace := sh.trace ++ [.created sh.logType sh.logData] },
      if sh.logType.isSome && sh.logData.isSome then .setDone else .faulted)
  | .setDone => ({ sh with done := true }, .unlock)
  | .unlock => ({ sh with holder := none }, .call)
  | .call =>
    afterCall sh.logType sh.logData c
      { sh with trace := sh.trace ++ [.delegated g sh.logType sh.logData c] }
  | .faulted => (sh, .faulted)
  | .finished => (sh, .finished)

/-- The process: the shared variables and the place of every goroutine. -/
structure Conc (L V W R : Type) where
  sh : Shared L V W R
  pcs : Nat → Pc L

/-- The process at the moment `n` goroutines have each entered a leveled
function and nothing of the package has run before. -/
def Conc.start (n : Nat) : Conc L V W R :=
  { sh :=
      { logType := none
        logData := none
        done := false
        holder := none
        DefaultConfig := logger.DefaultConfig
        trace := []
        halted := false }
    pcs := fun g => if g < n then .check else .finished }

/-- One step of goroutine `g` in a process that has not exited; `calls g` is the
leveled call the goroutine is in. -/
def stepLive (mode : LogStore) (w : World L V W R) (calls : Nat → Call V W R) (g : Nat)
    (st : Conc L V W R) : Conc L V W R :=
  { sh := (advance mode w g (calls g) st.sh (st.pcs g)).1
    pcs := fun j => if j = g then (advance mode w g (calls g) st.sh (st.pcs g)).2
      else st.pcs j }

/-- Let goroutine `g` take one step.  Nothing moves once the process has exited. -/
def cstep (mode : LogStore) (w : World L V W R) (calls : Nat → Call V W R) (g : Nat)
    (st : Conc L V W R) : Conc L V W R :=
  if st.sh.halted then st else stepLive mode w calls g st

/-- Run a schedule: the goroutines named in the list step in that order. -/
def crun (mode : LogStore) (w : World L V W R) (calls : Nat → Call V W R) :
    List Nat → Conc L V W R → Conc L V W R
  | [], st => st
  | g :: gs, st => crun mode w calls gs (cstep mode w calls g st)

/-- Whether the goroutine holds the mutex of `doOnce` at this place. -/
def Pc.critical : Pc L → Bool
  | .recheck | .env | .construct | .store _ | .storeData _ | .nestedCheck | .selfLock
  | .nestedCall | .setDone | .unlock => true
  | _ => false

/-- How far the lazy start has come, read off the done flag and the place `hp`
of the goroutine that holds the mutex, and what the shared variables hold then. -/
def Phase (w : World L V W R) (l : L) (sh : Shared L V W R) (hp : Option (Pc L)) : Prop :=
  match sh.done, hp with
  | true, none | true, some .recheck | true, some .unlock =>
    sh.logType = some l ∧ sh.trace.countP GEvent.isConstruct = 1 ∧
      sh.trace.countP GEvent.isCreated = 1
  | false, none | false, some .recheck | false, some .env =>
    sh.logType = none ∧ sh.trace = [] ∧ sh.DefaultConfig = logger.DefaultConfig
  | false, some .construct =>
    sh.logType = none ∧ sh.trace = [.getenv EnvKeyEnv] ∧
      sh.DefaultConfig = lazyConfig w (Proc.initial : Proc L V W R)
  | false, some (.store x) =>
    x = some l ∧ sh.logType = none ∧ sh.trace.countP GEvent.isConstruct = 1 ∧
      sh.trace.countP GEvent.isCreated = 0
  | false, some .nestedCheck | false, some .nestedCall =>
    sh.logType = some l ∧ sh.trace.countP GEvent.isConstruct = 1 ∧
      sh.trace.countP GEvent.isCreated = 0
  | false, some .setDone =>
    sh.logType = some l ∧ sh.trace.countP GEvent.isConstruct = 1 ∧
      sh.trace.countP GEvent.isCreated = 1
  | _, _ => False

/-- What holds of every state that `n` goroutines reach when `log = logger` is
one store and the constructor answers the lazy start with the logger `l`. -/
structure Inv (w : World L V W R) (n : Nat) (calls : Nat → Call V W R) (l : L)
    (st : Conc L V W R) : Prop where
  absent : ∀ g, n ≤ g → st.pcs g = .finished
  excl : ∀ g, (st.pcs g).critical = true → st.sh.holder = some g
  held : ∀ h, st.sh.holder = some h → (st.pcs h).critical = true
  words : st.sh.logData = st.sh.logType
  phase : Phase w l st.sh (st.sh.holder.map st.pcs)
  called : ∀ g, st.pcs g = .call → st.sh.logType = some l
  fin : ∀ g, g < n → st.pcs g = .finished →
    GEvent.delegated g (some l) (some l) (calls g) ∈ st.sh.trace
  intact : ∀ g t d c, GEvent.delegated g t d c ∈ st.sh.trace →
    t = some l ∧ d = some l ∧ c = calls g
  message : ∀ t d, GEvent.created t d ∈ st.sh.trace → t = some l ∧ d = some l
  sound : ∀ g, st.pcs g ≠ .faulted

/-- Two goroutines that both call `Infof`. -/
def demoCalls : Nat → Call Nat Nat Nat :=
  fun g => .Infof "request %d" [g]

/-- A schedule for testing: goroutine 0 runs up to and including the store of
the type word of `log`, then goroutine 1 runs its test and its method call. -/
def demoRace : List Nat := [0, 0, 0, 0, 0, 0, 0, 1, 1]

/-- A schedule for testing in which goroutine 1 starts first, goroutine 0 does
the lazy start, and both run to the end. -/
def demoFair : List Nat := [1, 0, 0, 1, 0, 0, 0, 0, 0, 1, 0, 0, 0, 0, 0, 1, 1, 1, 1]

/-- A world for testing: the variable `env` has the given value, construction
number `n` yields logger `n`, except that a configuration with the file sink
enabled and no file location is refused. -/
def demoWorld (env : Option String) : World Nat Nat Nat Nat :=
  { environ := fun key => if key = "env" then env else none
    newZapLogger := fun t c =>
      if c.EnableFile && c.FileLocation.isEmpty then (none, some (.other "no file"))
      else (some (constructed t).length, none)
    withFields := fun _ l kv => some (l + 100 + kv.length) }


/-- A state for testing in which a logger was installed earlier. -/
def demoSet : Proc Nat Nat Nat Nat :=
  { log := some 7, doOnce := .unused, DefaultConfig := DefaultConfig, trace := [] }

/-- The initial state, at the types of `demoWorld`. -/
def demoFresh : Proc Nat Nat Nat Nat := Proc.initial

/-- Some later calls for testing. -/
def demoLater : List (Op Nat Nat Nat) :=
  [.facade (.Infof "started" []), .WithFields [("job", 4)], .facade (.Panicf "bad %d" [1]),
   .facade (.ChangeLogLevel 1 2)]

/-- A fresh process whose `DefaultConfig` was changed to one that `demoWorld` refuses. -/
def demoBroken : Proc Nat Nat Nat Nat :=
  { log := none
    doOnce := .unused
    DefaultConfig := { DefaultConfig with EnableFile := true }
    trace := [] }

/-- Calls of every kind for testing. -/
def demoMixed : List (Op Nat Nat Nat) :=
  [.NewLogger { DefaultConfig with EnableFile := true } 0, .NewLogger DefaultConfig 5,
   .facade (.Warnf "w" []), .NewLogger DefaultConfig 0, .WithFields [], .facade (.Fatalf "f" [])]

/-- A configuration that `demoWorld` refuses. -/
def demoBadConfig : LoggerConfig :=
  { DefaultConfig with EnableFile := true }

/-- Successive calls of `NewLogger` for the one backing kind, keeping the state. -/
def newLoggers (w : World L V W R) (configs : List LoggerConfig) (s : Proc L V W R) :
    Proc L V W R :=
  configs.foldl (fun st config => (NewLogger w config InstanceZapLogger st).1) s

/-! ## Basic facts -/

theorem facade_eq_lazily (w : World L V W R) (fuel : Nat) (c : Call V W R) :
    facade w fuel c = lazily (initLogger w fuel) c := by
  cases c <;> rfl

/-- With the singleton set, a facade function only forwards. -/
theorem facade_of_set (w : World L V W R) (fuel : Nat) (c : Call V W R) (s : Proc L V W R)
    (l : L) (hl : s.log = some l) :
    facade w fuel c s = (s.emit (.call l c), c.completion.outcome) := by
  rw [facade_eq_lazily]
  cases h : c.completion <;> simp [lazily, invoke, hl, h, Completion.outcome]

/-- The first run of `initLogger` when the constructor yields a logger. -/
theorem initLogger_started (w : World L V W R) (n : Nat) (s : Proc L V W R) (l : L)
    (honce : s.doOnce = .unused)
    (hctor : w.newZapLogger (s.trace ++ [.getenv EnvKeyEnv]) (lazyConfig w s) = (some l, none)) :
    initLogger w (n + 1) s = (lazyStarted w s l, .ok ()) := by
  unfold lazyConfig at hctor
  by_cases hp : w.Getenv EnvKeyEnv = "prod"
  · simp only [hp, if_true] at hctor
    simp [initLogger, onceDo, honce, initLoggerBody, NewLogger, Proc.emit, hp, hctor, lazily,
      invoke, Call.completion, Completion.outcome, lazyStarted, lazyConfig, createdMessage]
  · simp only [hp, if_false] at hctor
    simp [initLogger, onceDo, honce, initLoggerBody, NewLogger, Proc.emit, hp, hctor, lazily,
      invoke, Call.completion, Completion.outcome, lazyStarted, lazyConfig, createdMessage]

/-- The first run of `initLogger` when the constructor reports an error. -/
theorem initLogger_failed (w : World L V W R) (n : Nat) (s : Proc L V W R) (e : GoError)
    (honce : s.doOnce = .unused)
    (hctor : (w.newZapLogger (s.trace ++ [.getenv EnvKeyEnv]) (lazyConfig w s)).2 = some e) :
    initLogger w (n + 1) s =
      ({ log := s.log
         doOnce := .running
         DefaultConfig := lazyConfig w s
         trace := s.trace ++ [.getenv EnvKeyEnv, .construct (lazyConfig w s),
           .stdFatal ("Could not instantiate log " ++ e.Error)] }, .abort .exit) := by
  unfold lazyConfig at hctor
  by_cases hp : w.Getenv EnvKeyEnv = "prod"
  · simp only [hp, if_true] at hctor
    simp [initLogger, onceDo, honce, initLoggerBody, NewLogger, Proc.emit, hp, hctor,
      lazyConfig]
  · simp only [hp, if_false] at hctor
    simp [initLogger, onceDo, honce, initLoggerBody, NewLogger, Proc.emit, hp, hctor,
      lazyConfig]

/-- The first use of a facade function when the constructor yields a logger. -/
theorem facade_first_use (w : World L V W R) (n : Nat) (c : Call V W R) (s : Proc L V W R)
    (l : L) (hlog : s.log = none) (honce : s.doOnce = .unused)
    (hctor : w.newZapLogger (s.trace ++ [.getenv EnvKeyEnv]) (lazyConfig w s) = (some l, none)) :
    facade w (n + 1) c s = ((lazyStarted w s l).emit (.call l c), c.completion.outcome) := by
  rw [facade_eq_lazily]
  have h := initLogger_started w n s l honce hctor
  simp [lazily, hlog, h, invoke, lazyStarted]

/-- With the singleton set, a call other than `NewLogger` adds its own
delegation to the events and changes nothing else. -/
theorem step_of_set (w : World L V W R) (fuel : Nat) (op : Op V W R) (s : Proc L V W R)
    (l : L) (hl : s.log = some l) (hop : op.isUse = true) :
    ∃ o, step w fuel op s = ({ s with trace := s.trace ++ op.delegation l }, o) ∧
      (o = .ok () ∨ o = .abort .panic ∨ o = .abort .exit) := by
  cases op with
  | NewLogger config k => simp [Op.isUse] at hop
  | facade c =>
    refine ⟨c.completion.outcome, ?_, ?_⟩
    · simp [step, facade_of_set w fuel c s l hl, Proc.emit, Op.delegation]
    · cases c.completion <;> simp [Completion.outcome]
  | WithFields keyValues =>
    refine ⟨.ok (), ?_, Or.inl rfl⟩
    simp [step, WithFields, hl, Proc.emit, Op.delegation]

/-- With the singleton set, a run of calls other than `NewLogger` only
delegates: the variables of the package stay as they are and the new events are
the delegations of the calls that were reached. -/
theorem run_of_set (w : World L V W R) (fuel : Nat) (ops : List (Op V W R)) :
    ∀ (s : Proc L V W R) (l : L), s.log = some l → (∀ op ∈ ops, op.isUse = true) →
    ∃ k, k ≤ ops.length ∧
      (run w fuel ops s).1 = { s with trace := s.trace ++ delegations l (ops.take k) } ∧
      ((run w fuel ops s).2 = .ok () → k = ops.length) := by
  induction ops with
  | nil =>
    intro s l _ _
    exact ⟨0, le_refl _, by simp [run, delegations], fun _ => rfl⟩
  | cons op ops ih =>
    intro s l hl hops
    obtain ⟨o, hstep, ho⟩ := step_of_set w fuel op s l hl (hops op (List.mem_cons_self _ _))
    have hrest : ∀ op0 ∈ ops, op0.isUse = true :=
      fun op0 h0 => hops op0 (List.mem_cons_of_mem _ h0)
    obtain ⟨k, hk, htrace, hall⟩ :=
      ih { s with trace := s.trace ++ op.delegation l } l hl hrest
    rcases ho with ho | ho | ho
    · subst ho
      refine ⟨k + 1, by simpa using hk, ?_, ?_⟩
      · simp [run, hstep, htrace, delegations, List.append_assoc]
      · intro h
        simp only [run, hstep] at h
        simpa using hall h
    · subst ho
      refine ⟨k + 1, by simpa using hk, ?_, ?_⟩
      · simp [run, hstep, htrace, delegations, List.append_assoc]
      · intro h
        simp only [run, hstep] at h
        simpa using hall h
    · subst ho
      refine ⟨1, by simp, ?_, ?_⟩
      · simp [run, hstep, delegations]
      · intro h
        simp [run, hstep] at h

/-- While the function of the Once is executing, `initLogger` does not return
and changes nothing. -/
theorem initLogger_running (w : World L V W R) (n : Nat) (s : Proc L V W R)
    (honce : s.doOnce = .running) :
    initLogger w n s = (s, .abort .outOfFuel) ∨ initLogger w n s = (s, .abort .deadlock) := by
  cases n <;> simp [initLogger, onceDo, honce]

/-- The first run of `initLogger` when the constructor yields the nil logger and
no error: the nested `Infof` finds `log` still nil and enters `initLogger` again. -/
theorem initLogger_nil (w : World L V W R) (n : Nat) (s : Proc L V W R)
    (honce : s.doOnce = .unused)
    (hctor : w.newZapLogger (s.trace ++ [.getenv EnvKeyEnv]) (lazyConfig w s) = (none, none)) :
    ∃ a, initLogger w (n + 1) s =
      ({ log := none
         doOnce := .running
         DefaultConfig := lazyConfig w s
         trace := s.trace ++ [.getenv EnvKeyEnv, .construct (lazyConfig w s)] }, .abort a) := by
  have hrun := initLogger_running w n
    { log := none
      doOnce := .running
      DefaultConfig := lazyConfig w s
      trace := s.trace ++ [.getenv EnvKeyEnv, .construct (lazyConfig w s)] } rfl
  unfold lazyConfig at hctor hrun
  by_cases hp : w.Getenv EnvKeyEnv = "prod"
  · simp only [hp, if_true] at hctor hrun
    rcases hrun with hrun | hrun
    · exact ⟨.outOfFuel, by
        simp [initLogger, onceDo, honce, initLoggerBody, NewLogger, Proc.emit, hp, hctor,
          lazily, hrun, lazyConfig]⟩
    · exact ⟨.deadlock, by
        simp [initLogger, onceDo, honce, initLoggerBody, NewLogger, Proc.emit, hp, hctor,
          lazily, hrun, lazyConfig]⟩
  · simp only [hp, if_false] at hctor hrun
    rcases hrun with hrun | hrun
    · exact ⟨.outOfFuel, by
        simp [initLogger, onceDo, honce, initLoggerBody, NewLogger, Proc.emit, hp, hctor,
          lazily, hrun, lazyConfig]⟩
    · exact ⟨.deadlock, by
        simp [initLogger, onceDo, honce, initLoggerBody, NewLogger, Proc.emit, hp, hctor,
          lazily, hrun, lazyConfig]⟩

theorem constructed_append (t u : List (Event L V W R)) :
    constructed (t ++ u) = constructed t ++ constructed u := by
  induction t with
  | nil => rfl
  | cons e t ih => cases e <;> simp [constructed, ih]

/-- Whatever the constructor answers, the first lazy start hands it exactly the
configuration `lazyConfig`, once. -/
theorem constructed_first_use (w : World L V W R) (n : Nat) (c : Call V W R)
    (s : Proc L V W R) (hlog : s.log = none) (honce : s.doOnce = .unused) :
    constructed (facade w (n + 1) c s).1.trace = constructed s.trace ++ [lazyConfig w s] := by
  rcases h : w.newZapLogger (s.trace ++ [.getenv EnvKeyEnv]) (lazyConfig w s) with ⟨ol, oe⟩
  cases oe with
  | some e =>
    have h2 : (w.newZapLogger (s.trace ++ [.getenv EnvKeyEnv]) (lazyConfig w s)).2 = some e := by
      rw [h]
    rw [facade_eq_lazily]
    simp [lazily, hlog, initLogger_failed w n s e honce h2, constructed_append, constructed]
  | none =>
    cases ol with
    | some l =>
      rw [facade_first_use w n c s l hlog honce h]
      simp [lazyStarted, Proc.emit, constructed_append, constructed]
    | none =>
      obtain ⟨a, ha⟩ := initLogger_nil w n s honce h
      rw [facade_eq_lazily]
      simp [lazily, hlog, ha, constructed_append, constructed]

theorem getenv_eq_prod_iff (w : World L V W R) (key : String) :
    w.Getenv key = "prod" ↔ w.environ key = some "prod" := by
  unfold World.Getenv
  cases h : w.environ key with
  | none => simp
  | some v => simp

/-- A call of an exported function leaves a set singleton set, as long as the
constructor never answers with neither a logger nor an error. -/
theorem step_keeps_set (w : World L V W R) (fuel : Nat) (op : Op V W R) (s : Proc L V W R)
    (hw : ∀ t c, (w.newZapLogger t c).2 = none → (w.newZapLogger t c).1.isSome = true)
    (hs : s.log.isSome = true) : (step w fuel op s).1.log.isSome = true := by
  cases op with
  | NewLogger config k =>
    by_cases hk : k = InstanceZapLogger
    · cases he : (w.newZapLogger s.trace config).2 with
      | some e => simp [step, NewLogger, hk, he, Proc.emit, hs]
      | none => simp [step, NewLogger, hk, he, Proc.emit, hw s.trace config he]
    · simp [step, NewLogger, hk, hs]
  | facade c =>
    obtain ⟨l, hl⟩ := Option.isSome_iff_exists.mp hs
    simp [step, facade_of_set w fuel c s l hl, Proc.emit, hl]
  | WithFields keyValues =>
    obtain ⟨l, hl⟩ := Option.isSome_iff_exists.mp hs
    simp [step, WithFields, hl, Proc.emit]

/-! ## The claims -/

/-- C1: for every configuration, every backing kind other than `InstanceZapLogger`
and every prior state, `NewLogger` returns `errInvalidLoggerInstance` and leaves
the whole state as it was: the singleton is untouched and, the events being
unchanged, the backing constructor was not called. -/
theorem NewLogger_unknown_kind (w : World L V W R) (config : LoggerConfig)
    (loggerInstance : Int) (s : Proc L V W R) (hkind : loggerInstance ≠ InstanceZapLogger) :
    NewLogger w config loggerInstance s = (s, some GoError.errInvalidLoggerInstance) := by
  simp [NewLogger, hkind]

theorem NewLogger_unknown_kind_witness :
    (3 : Int) ≠ InstanceZapLogger ∧
    NewLogger (demoWorld none) DefaultConfig 3 demoSet =
      (demoSet, some GoError.errInvalidLoggerInstance) :=
  ⟨by decide, NewLogger_unknown_kind (demoWorld none) DefaultConfig 3 demoSet (by decide)⟩

/-- C2: whatever the prior state, here the state after any sequence of earlier
`NewLogger` calls from any state, if the backing constructor answers
configuration `config` with logger `l` and no error, then
`NewLogger config InstanceZapLogger` returns no error and the singleton is
exactly `l` afterwards; so after a sequence of such calls the singleton is the
logger built by the last one. -/
theorem NewLogger_last_writer_wins (w : World L V W R) (s : Proc L V W R)
    (earlier : List LoggerConfig) (config : LoggerConfig) (l : Option L)
    (hctor : w.newZapLogger (newLoggers w earlier s).trace config = (l, none)) :
    (NewLogger w config InstanceZapLogger (newLoggers w earlier s)).2 = none ∧
    (NewLogger w config InstanceZapLogger (newLoggers w earlier s)).1.log = l ∧
    (newLoggers w (earlier ++ [config]) s).log = l := by
  have h : NewLogger w config InstanceZapLogger (newLoggers w earlier s) =
      ({ (newLoggers w earlier s).emit (.construct config) with log := l }, none) := by
    simp [NewLogger, hctor]
  refine ⟨by rw [h], by rw [h], ?_⟩
  simp only [newLoggers, List.foldl_append, List.foldl_cons, List.foldl_nil]
  simp only [newLoggers] at h
  rw [h]

theorem NewLogger_last_writer_wins_witness :
    (demoWorld none).newZapLogger
        (newLoggers (demoWorld none) [DefaultConfig, demoBadConfig] demoSet).trace
        DefaultConfig = (some 2, none) ∧
    ((NewLogger (demoWorld none) DefaultConfig InstanceZapLogger
        (newLoggers (demoWorld none) [DefaultConfig, demoBadConfig] demoSet)).2 = none ∧
     (NewLogger (demoWorld none) DefaultConfig InstanceZapLogger
        (newLoggers (demoWorld none) [DefaultConfig, demoBadConfig] demoSet)).1.log = some 2 ∧
     (newLoggers (demoWorld none) ([DefaultConfig, demoBadConfig] ++ [DefaultConfig])
        demoSet).log = some 2) :=
  ⟨by decide, NewLogger_last_writer_wins (demoWorld none) demoSet
    [DefaultConfig, demoBadConfig] DefaultConfig (some 2) (by decide)⟩

/-- C3: whatever the prior state, if the backing constructor answers
configuration `config` with error `e`, then `NewLogger config InstanceZapLogger`
returns exactly `e`, and the singleton, the Once and `DefaultConfig` are as
before; only the construction attempt is added to the events. -/
theorem NewLogger_constructor_error (w : World L V W R) (config : LoggerConfig)
    (s : Proc L V W R) (e : GoError) (hctor : (w.newZapLogger s.trace config).2 = some e) :
    (NewLogger w config InstanceZapLogger s).2 = some e ∧
    (NewLogger w config InstanceZapLogger s).1.log = s.log ∧
    (NewLogger w config InstanceZapLogger s).1 =
      { s with trace := s.trace ++ [.construct config] } := by
  simp [NewLogger, hctor, Proc.emit]

theorem NewLogger_constructor_error_witness :
    ((demoWorld none).newZapLogger demoSet.trace demoBadConfig).2 = some (.other "no file") ∧
    ((NewLogger (demoWorld none) demoBadConfig InstanceZapLogger demoSet).2 =
        some (.other "no file") ∧
     (NewLogger (demoWorld none) demoBadConfig InstanceZapLogger demoSet).1.log = demoSet.log ∧
     (NewLogger (demoWorld none) demoBadConfig InstanceZapLogger demoSet).1 =
        { demoSet with trace := demoSet.trace ++ [.construct demoBadConfig] }) :=
  ⟨by decide, NewLogger_constructor_error (demoWorld none) demoBadConfig demoSet
    (.other "no file") (by decide)⟩

/-- C4: from the initial process state, the first call of any of `Debugf` ...
`ChangeLogLevel` hands the backing constructor exactly one configuration: console
enabled, non-JSON, file disabled, and console level "warn" if the variable "env"
of the environment is set to "prod", "debug" if it is unset or has any other
value. -/
theorem first_lazy_config (w : World L V W R) (fuel : Nat) (c : Call V W R)
    (hfuel : 1 ≤ fuel) :
    constructed (facade w fuel c Proc.initial).1.trace =
      [{ EnableConsole := true
         ConsoleJSONFormat := false
         ConsoleLevel := if w.environ "env" = some "prod" then "warn" else "debug"
         EnableFile := false
         FileJSONFormat := false
         FileLevel := ""
         FileLocation := "" }] := by
  obtain ⟨n, rfl⟩ : ∃ n, fuel = n + 1 := ⟨fuel - 1, by omega⟩
  rw [constructed_first_use w n c Proc.initial rfl rfl]
  by_cases hp : w.environ "env" = some "prod"
  · have hg : w.Getenv EnvKeyEnv = "prod" := (getenv_eq_prod_iff w EnvKeyEnv).mpr hp
    simp [lazyConfig, hg, hp, Proc.initial, constructed, DefaultConfig, Warn]
  · have hg : ¬ w.Getenv EnvKeyEnv = "prod" := fun h => hp ((getenv_eq_prod_iff w EnvKeyEnv).mp h)
    simp [lazyConfig, hg, hp, Proc.initial, constructed, DefaultConfig, Debug]

theorem first_lazy_config_witness :
    1 ≤ 2 ∧
    constructed (facade (demoWorld (some "prod")) 2 (.Warnf "disk at %d" [90])
        Proc.initial).1.trace =
      [{ EnableConsole := true
         ConsoleJSONFormat := false
         ConsoleLevel := "warn"
         EnableFile := false
         FileJSONFormat := false
         FileLevel := ""
         FileLocation := "" }] :=
  ⟨by decide, first_lazy_config (demoWorld (some "prod")) 2 (.Warnf "disk at %d" [90])
    (by decide)⟩

/-- C5: with the singleton unset, the Once unused and a constructor that answers
the default configuration with a logger `l`, the first call of any of `Debugf`
... `ChangeLogLevel` (already with nesting bound 1, so the nested `Infof` does not
enter `initLogger` again) reads the environment, constructs once, logs
"Logger created successfuly" once on `l` and then hands the call of the caller to
`l`, leaving the singleton set to `l` and the Once done; each later call of
these functions or of `WithFields` adds only its own delegation to `l`. -/
theorem lazy_first_use (w : World L V W R) (fuel : Nat) (c : Call V W R) (s : Proc L V W R)
    (l : L) (ops : List (Op V W R)) (hfuel : 1 ≤ fuel)
    (hlog : s.log = none) (honce : s.doOnce = .unused)
    (hctor : w.newZapLogger (s.trace ++ [.getenv EnvKeyEnv]) (lazyConfig w s) = (some l, none))
    (hops : ∀ op ∈ ops, op.isUse = true) :
    facade w fuel c s =
      ({ log := some l
         doOnce := .done
         DefaultConfig := lazyConfig w s
         trace := s.trace ++ [.getenv EnvKeyEnv, .construct (lazyConfig w s),
           .call l (.Infof "Logger created successfuly" []), .call l c] },
       c.completion.outcome) ∧
    ∃ k, k ≤ ops.length ∧
      (run w fuel (.facade c :: ops) s).1 =
        { log := some l
          doOnce := .done
          DefaultConfig := lazyConfig w s
          trace := s.trace ++ [.getenv EnvKeyEnv, .construct (lazyConfig w s),
            .call l (.Infof "Logger created successfuly" []), .call l c] ++
            delegations l (ops.take k) } ∧
      ((run w fuel (.facade c :: ops) s).2 = .ok () → k = ops.length) := by
  obtain ⟨n, rfl⟩ : ∃ n, fuel = n + 1 := ⟨fuel - 1, by omega⟩
  have h1 := facade_first_use w n c s l hlog honce hctor
  have h2 : (lazyStarted w s l).emit (.call l c) =
      { log := some l
        doOnce := .done
        DefaultConfig := lazyConfig w s
        trace := s.trace ++ [.getenv EnvKeyEnv, .construct (lazyConfig w s),
          .call l (.Infof "Logger created successfuly" []), .call l c] } := by
    simp [lazyStarted, Proc.emit, createdMessage]
  rw [h2] at h1
  refine ⟨h1, ?_⟩
  obtain ⟨k, hk, htrace, hall⟩ := run_of_set w (n + 1) ops _ l
    (show (Proc.mk (some l) OnceState.done (lazyConfig w s)
      (s.trace ++ [.getenv EnvKeyEnv, .construct (lazyConfig w s),
        .call l (.Infof "Logger created successfuly" []), .call l c])).log = some l from rfl) hops
  cases hc : c.completion with
  | returns =>
    simp only [hc, Completion.outcome] at h1
    exact ⟨k, hk, by simp only [run, step, h1]; rw [htrace],
      by simp only [run, step, h1]; exact hall⟩
  | panics =>
    simp only [hc, Completion.outcome] at h1
    exact ⟨k, hk, by simp only [run, step, h1]; rw [htrace],
      by simp only [run, step, h1]; exact hall⟩
  | exits =>
    simp only [hc, Completion.outcome] at h1
    exact ⟨0, Nat.zero_le _, by simp [run, step, h1, delegations],
      by simp [run, step, h1]⟩

theorem lazy_first_use_witness :
    1 ≤ 1 ∧ demoFresh.log = none ∧ demoFresh.doOnce = .unused ∧
    (demoWorld none).newZapLogger (demoFresh.trace ++ [.getenv EnvKeyEnv])
      (lazyConfig (demoWorld none) demoFresh) = (some 0, none) ∧
    (∀ op ∈ demoLater, op.isUse = true) ∧
    (facade (demoWorld none) 1 (.Errorf "code %d" [5]) demoFresh =
      ({ log := some 0
         doOnce := .done
         DefaultConfig := lazyConfig (demoWorld none) demoFresh
         trace := demoFresh.trace ++ [.getenv EnvKeyEnv,
           .construct (lazyConfig (demoWorld none) demoFresh),
           .call 0 (.Infof "Logger created successfuly" []), .call 0 (.Errorf "code %d" [5])] },
       (Call.Errorf "code %d" [5] : Call Nat Nat Nat).completion.outcome) ∧
    ∃ k, k ≤ demoLater.length ∧
      (run (demoWorld none) 1 (.facade (.Errorf "code %d" [5]) :: demoLater) demoFresh).1 =
        { log := some 0
          doOnce := .done
          DefaultConfig := lazyConfig (demoWorld none) demoFresh
          trace := demoFresh.trace ++ [.getenv EnvKeyEnv,
            .construct (lazyConfig (demoWorld none) demoFresh),
            .call 0 (.Infof "Logger created successfuly" []),
            .call 0 (.Errorf "code %d" [5])] ++ delegations 0 (demoLater.take k) } ∧
      ((run (demoWorld none) 1 (.facade (.Errorf "code %d" [5]) :: demoLater) demoFresh).2 =
        .ok () → k = demoLater.length)) :=
  ⟨by decide, rfl, rfl, by decide, by decide,
    lazy_first_use (demoWorld none) 1 (.Errorf "code %d" [5]) demoFresh 0 demoLater
      (by decide) rfl rfl (by decide) (by decide)⟩

/-- C6: if the backing constructor answers configuration `config` with a logger
`l` and no error, then `NewLogger config InstanceZapLogger` returns no error, and
afterwards every call of `Debugf` ... `ChangeLogLevel` hands exactly that call to
`l` and does nothing else, even with nesting bound 0, so `initLogger` is never
entered: the environment is not read, nothing is constructed, no
"Logger created successfuly" is logged, and the Once and `DefaultConfig` stay as
they were.  The same holds along any sequence of such calls. -/
theorem explicit_start_bypasses_lazy (w : World L V W R) (fuel : Nat)
    (config : LoggerConfig) (s : Proc L V W R) (l : L) (ops : List (Op V W R))
    (hctor : w.newZapLogger s.trace config = (some l, none))
    (hops : ∀ op ∈ ops, op.isUse = true) :
    (NewLogger w config InstanceZapLogger s).2 = none ∧
    (∀ c : Call V W R, facade w fuel c (NewLogger w config InstanceZapLogger s).1 =
      ({ log := some l
         doOnce := s.doOnce
         DefaultConfig := s.DefaultConfig
         trace := s.trace ++ [.construct config, .call l c] }, c.completion.outcome)) ∧
    ∃ k, k ≤ ops.length ∧
      (run w fuel ops (NewLogger w config InstanceZapLogger s).1).1 =
        { log := some l
          doOnce := s.doOnce
          DefaultConfig := s.DefaultConfig
          trace := s.trace ++ [.construct config] ++ delegations l (ops.take k) } ∧
      ((run w fuel ops (NewLogger w config InstanceZapLogger s).1).2 = .ok () →
        k = ops.length) := by
  have h : NewLogger w config InstanceZapLogger s =
      ({ log := some l
         doOnce := s.doOnce
         DefaultConfig := s.DefaultConfig
         trace := s.trace ++ [.construct config] }, none) := by
    simp [NewLogger, hctor, Proc.emit]
  rw [h]
  refine ⟨rfl, ?_, ?_⟩
  · intro c
    rw [facade_of_set w fuel c _ l rfl]
    simp [Proc.emit]
  · exact run_of_set w fuel ops _ l rfl hops

theorem explicit_start_bypasses_lazy_witness :
    (demoWorld (some "prod")).newZapLogger demoFresh.trace DefaultConfig = (some 0, none) ∧
    (∀ op ∈ demoLater, op.isUse = true) ∧
    ((NewLogger (demoWorld (some "prod")) DefaultConfig InstanceZapLogger demoFresh).2 = none ∧
    (∀ c : Call Nat Nat Nat, facade (demoWorld (some "prod")) 0 c
        (NewLogger (demoWorld (some "prod")) DefaultConfig InstanceZapLogger demoFresh).1 =
      ({ log := some 0
         doOnce := demoFresh.doOnce
         DefaultConfig := demoFresh.DefaultConfig
         trace := demoFresh.trace ++ [.construct DefaultConfig, .call 0 c] },
       c.completion.outcome)) ∧
    ∃ k, k ≤ demoLater.length ∧
      (run (demoWorld (some "prod")) 0 demoLater
        (NewLogger (demoWorld (some "prod")) DefaultConfig InstanceZapLogger demoFresh).1).1 =
        { log := some 0
          doOnce := demoFresh.doOnce
          DefaultConfig := demoFresh.DefaultConfig
          trace := demoFresh.trace ++ [.construct DefaultConfig] ++
            delegations 0 (demoLater.take k) } ∧
      ((run (demoWorld (some "prod")) 0 demoLater
        (NewLogger (demoWorld (some "prod")) DefaultConfig InstanceZapLogger demoFresh).1).2 =
          .ok () → k = demoLater.length)) :=
  ⟨by decide, by decide,
    explicit_start_bypasses_lazy (demoWorld (some "prod")) 0 DefaultConfig demoFresh 0
      demoLater (by decide) (by decide)⟩

/-- C7: with the singleton unset, the Once unused and a constructor that answers
the default configuration with an error `e`, the first call of any of `Debugf`
... `ChangeLogLevel` ends in process exit after the standard logger printed
"Could not instantiate log" with the message of `e`: nothing is returned to the
caller, the call is not handed to any logger, the singleton stays unset, and no
later call of a sequence is run. -/
theorem lazy_start_failure (w : World L V W R) (fuel : Nat) (c : Call V W R)
    (s : Proc L V W R) (e : GoError) (ops : List (Op V W R)) (hfuel : 1 ≤ fuel)
    (hlog : s.log = none) (honce : s.doOnce = .unused)
    (hctor : (w.newZapLogger (s.trace ++ [.getenv EnvKeyEnv]) (lazyConfig w s)).2 = some e) :
    facade w fuel c s =
      ({ log := none
         doOnce := .running
         DefaultConfig := lazyConfig w s
         trace := s.trace ++ [.getenv EnvKeyEnv, .construct (lazyConfig w s),
           .stdFatal ("Could not instantiate log " ++ e.Error)] }, .abort .exit) ∧
    run w fuel (.facade c :: ops) s = facade w fuel c s := by
  obtain ⟨n, rfl⟩ : ∃ n, fuel = n + 1 := ⟨fuel - 1, by omega⟩
  have h : facade w (n + 1) c s =
      ({ log := none
         doOnce := .running
         DefaultConfig := lazyConfig w s
         trace := s.trace ++ [.getenv EnvKeyEnv, .construct (lazyConfig w s),
           .stdFatal ("Could not instantiate log " ++ e.Error)] }, .abort .exit) := by
    rw [facade_eq_lazily]
    simp [lazily, hlog, initLogger_failed w n s e honce hctor]
  exact ⟨h, by simp [run, step, h]⟩

theorem lazy_start_failure_witness :
    1 ≤ 2 ∧ demoBroken.log = none ∧ demoBroken.doOnce = .unused ∧
    ((demoWorld (some "prod")).newZapLogger (demoBroken.trace ++ [.getenv EnvKeyEnv])
      (lazyConfig (demoWorld (some "prod")) demoBroken)).2 = some (.other "no file") ∧
    (facade (demoWorld (some "prod")) 2 (.Debugf "x" []) demoBroken =
      ({ log := none
         doOnce := .running
         DefaultConfig := lazyConfig (demoWorld (some "prod")) demoBroken
         trace := demoBroken.trace ++ [.getenv EnvKeyEnv,
           .construct (lazyConfig (demoWorld (some "prod")) demoBroken),
           .stdFatal ("Could not instantiate log " ++ (GoError.other "no file").Error)] },
       .abort .exit) ∧
    run (demoWorld (some "prod")) 2 (.facade (.Debugf "x" []) :: demoLater) demoBroken =
      facade (demoWorld (some "prod")) 2 (.Debugf "x" []) demoBroken) :=
  ⟨by decide, rfl, rfl, by decide,
    lazy_start_failure (demoWorld (some "prod")) 2 (.Debugf "x" []) demoBroken
      (.other "no file") demoLater (by decide) rfl rfl (by decide)⟩

/-- C8: for every Fields mapping and every state whose singleton is a logger `l`,
the facade `WithFields` returns what the method `WithFields` of `l` returns, and
the singleton, the Once and `DefaultConfig` are as before: the only new event is
that method call, so `initLogger` was not run.  With the singleton unset the
call is a nil dereference and the state, still without a logger, is unchanged:
nothing was constructed. -/
theorem WithFields_frame (w : World L V W R) (keyValues : Fields V) (s : Proc L V W R)
    (l : L) :
    WithFields w keyValues { s with log := some l } =
      ({ log := some l
         doOnce := s.doOnce
         DefaultConfig := s.DefaultConfig
         trace := s.trace ++ [.withFields l keyValues] },
       .ok (w.withFields s.trace l keyValues)) ∧
    WithFields w keyValues { s with log := none } =
      ({ s with log := none }, .abort .nilDeref) := by
  simp [WithFields, Proc.emit]

/-- C9: if the backing constructor never answers with neither a logger nor an
error, then a set singleton stays set across every call of an exported function
(`NewLogger` with any configuration and kind, succeeding or failing, `Debugf` ...
`ChangeLogLevel`, `WithFields`) and hence along every sequence of such calls,
from any state. -/
theorem singleton_stays_set (w : World L V W R) (fuel : Nat) (ops : List (Op V W R))
    (s : Proc L V W R)
    (hw : ∀ t c, (w.newZapLogger t c).2 = none → (w.newZapLogger t c).1.isSome = true)
    (hs : s.log.isSome = true) :
    (run w fuel ops s).1.log.isSome = true ∧
    ∀ op : Op V W R, (step w fuel op s).1.log.isSome = true := by
  refine ⟨?_, fun op => step_keeps_set w fuel op s hw hs⟩
  induction ops generalizing s with
  | nil => simpa [run] using hs
  | cons op ops ih =>
    have h1 := step_keeps_set w fuel op s hw hs
    have h2 := ih (step w fuel op s).1 h1
    unfold run
    split
    · exact h2
    · exact h2
    · exact h2
    · exact h1

theorem singleton_stays_set_witness :
    (∀ t c, ((demoWorld none).newZapLogger t c).2 = none →
      ((demoWorld none).newZapLogger t c).1.isSome = true) ∧
    demoSet.log.isSome = true ∧
    ((run (demoWorld none) 0 demoMixed demoSet).1.log.isSome = true ∧
     ∀ op : Op Nat Nat Nat, (step (demoWorld none) 0 op demoSet).1.log.isSome = true) :=
  ⟨by intro t c; unfold demoWorld; dsimp only; split <;> simp, rfl,
    singleton_stays_set (demoWorld none) 0 demoMixed demoSet
      (by intro t c; unfold demoWorld; dsimp only; split <;> simp) rfl⟩


/-! ## Goroutines: the lazy start under every schedule -/

theorem inv_start (w : World L V W R) (n : Nat) (calls : Nat → Call V W R) (l : L) :
    Inv w n calls l (Conc.start n) := by
  refine ⟨?_, ?_, ?_, rfl, ?_, ?_, ?_, ?_, ?_, ?_⟩
  · intro g hg
    simp [Conc.start, Nat.not_lt.mpr hg]
  · intro g
    simp only [Conc.start]
    split <;> simp [Pc.critical]
  · intro h
    simp [Conc.start]
  · simp [Conc.start, Phase]
  · intro g
    simp only [Conc.start]
    split <;> simp
  · intro g hg
    simp [Conc.start, hg]
  · intro g t d c
    simp [Conc.start]
  · intro t d
    simp [Conc.start]
  · intro g
    simp only [Conc.start]
    split <;> simp

theorem phase_log (w : World L V W R) (l : L) (sh : Shared L V W R) (hp : Option (Pc L))
    (h : Phase w l sh hp) : sh.logType = none ∨ sh.logType = some l := by
  unfold Phase at h
  split at h <;> simp_all

theorem phase_done (w : World L V W R) (l : L) (sh : Shared L V W R) (hp : Option (Pc L))
    (h : Phase w l sh hp) (hd : sh.done = true) : sh.logType = some l := by
  unfold Phase at h
  split at h <;> simp_all

theorem map_pcs_of_ne (pcs : Nat → Pc L) (holder : Option Nat) (g : Nat) (p : Pc L)
    (h : holder ≠ some g) :
    holder.map (fun j => if j = g then p else pcs j) = holder.map pcs := by
  cases holder with
  | none => rfl
  | some k =>
    have : k ≠ g := fun hk => h (by rw [hk])
    simp [this]

/-- A method call of a caller leaves the phase of the lazy start as it is. -/
theorem phase_delegated (w : World L V W R) (l : L) (sh : Shared L V W R) (hp : Option (Pc L))
    (g : Nat) (t d : Option L) (c : Call V W R) (h : Phase w l sh hp)
    (hlt : sh.logType = some l) :
    Phase w l { sh with trace := sh.trace ++ [.delegated g t d c] } hp := by
  unfold Phase at h ⊢
  split at h <;>
    simp_all [List.countP_append, GEvent.isConstruct, GEvent.isCreated]

theorem inv_step_check (w : World L V W R) (n : Nat) (calls : Nat → Call V W R) (l : L)
    (g : Nat) (st : Conc L V W R) (h : Inv w n calls l st) (hpc : st.pcs g = .check) :
    Inv w n calls l (stepLive .atomic w calls g st) := by
  obtain ⟨habsent, hexcl, hheld, hwords, hphase, hcalled, hfin, hintact, hmessage, hsound⟩ := h
  have hlog := phase_log w l _ _ hphase
  unfold stepLive
  simp only [hpc]
  have hne : st.sh.holder ≠ some g := fun hc => by
    have := hheld g hc
    simp [hpc, Pc.critical] at this
  simp only [advance]
  refine ⟨?_, ?_, ?_, hwords, ?_, ?_, ?_, hintact, hmessage, ?_⟩
  · intro j hj
    by_cases hjg : j = g
    · subst hjg
      simp [habsent j hj] at hpc
    · simp [hjg, habsent j hj]
  · intro j
    by_cases hjg : j = g
    · subst hjg
      simp only [if_true]
      split <;> simp [Pc.critical]
    · simpa [hjg] using hexcl j
  · intro k hk
    have hkg : k ≠ g := fun hc => hne (hc ▸ hk)
    simpa [hkg] using hheld k hk
  · rw [map_pcs_of_ne _ _ _ _ hne]
    exact hphase
  · intro j
    by_cases hjg : j = g
    · subst hjg
      simp only [if_true]
      rcases hlog with h0 | h0 <;> simp [h0]
    · simpa [hjg] using hcalled j
  · intro j hj
    by_cases hjg : j = g
    · subst hjg
      simp only [if_true]
      split <;> simp
    · simpa [hjg] using hfin j hj
  · intro j
    by_cases hjg : j = g
    · subst hjg
      simp only [if_true]
      split <;> simp
    · simpa [hjg] using hsound j

theorem inv_step_onceLoad (w : World L V W R) (n : Nat) (calls : Nat → Call V W R) (l : L)
    (g : Nat) (st : Conc L V W R) (h : Inv w n calls l st) (hpc : st.pcs g = .onceLoad) :
    Inv w n calls l (stepLive .atomic w calls g st) := by
  obtain ⟨habsent, hexcl, hheld, hwords, hphase, hcalled, hfin, hintact, hmessage, hsound⟩ := h
  have hlog := phase_log w l _ _ hphase
  unfold stepLive
  simp only [hpc]
  have hne : st.sh.holder ≠ some g := fun hc => by
    have := hheld g hc
    simp [hpc, Pc.critical] at this
  simp only [advance]
  refine ⟨?_, ?_, ?_, hwords, ?_, ?_, ?_, hintact, hmessage, ?_⟩
  · intro j hj
    by_cases hjg : j = g
    · subst hjg
      simp [habsent j hj] at hpc
    · simp [hjg, habsent j hj]
  · intro j
    by_cases hjg : j = g
    · subst hjg
      simp only [if_true]
      split <;> simp [Pc.critical]
    · simpa [hjg] using hexcl j
  · intro k hk
    have hkg : k ≠ g := fun hc => hne (hc ▸ hk)
    simpa [hkg] using hheld k hk
  · rw [map_pcs_of_ne _ _ _ _ hne]
    exact hphase
  · intro j
    by_cases hjg : j = g
    · subst hjg
      simp only [if_true]
      cases hd : st.sh.done with
      | true => simp [phase_done w l _ _ hphase hd]
      | false => simp
    · simpa [hjg] using hcalled j
  · intro j hj
    by_cases hjg : j = g
    · subst hjg
      simp only [if_true]
      split <;> simp
    · simpa [hjg] using hfin j hj
  · intro j
    by_cases hjg : j = g
    · subst hjg
      simp only [if_true]
      split <;> simp
    · simpa [hjg] using hsound j

theorem inv_step_lock (w : World L V W R) (n : Nat) (calls : Nat → Call V W R) (l : L)
    (g : Nat) (st : Conc L V W R) (h : Inv w n calls l st) (hpc : st.pcs g = .lock) :
    Inv w n calls l (stepLive .atomic w calls g st) := by
  obtain ⟨habsent, hexcl, hheld, hwords, hphase, hcalled, hfin, hintact, hmessage, hsound⟩ := h
  have hlog := phase_log w l _ _ hphase
  unfold stepLive
  simp only [hpc]
  have hne : st.sh.holder ≠ some g := fun hc => by
    have := hheld g hc
    simp [hpc, Pc.critical] at this
  simp only [advance]
  cases hho : st.sh.holder with
  | none =>
    rw [hho] at hphase
    simp only [Option.map_none'] at hphase
    refine ⟨?_, ?_, ?_, hwords, ?_, ?_, ?_, hintact, hmessage, ?_⟩
    · intro j hj
      by_cases hjg : j = g
      · subst hjg
        simp [habsent j hj] at hpc
      · simp [hjg, habsent j hj]
    · intro j
      by_cases hjg : j = g
      · subst hjg
        intro _
        rfl
      · intro hc
        simp only [if_neg hjg] at hc
        have := hexcl j hc
        simp [hho] at this
    · intro k hk
      simp only [Option.some.injEq] at hk
      subst hk
      simp [Pc.critical]
    · simp only [Option.map_some', if_true]
      cases hd : st.sh.done <;> simp_all [Phase]
    · intro j
      by_cases hjg : j = g
      · subst hjg
        simp
      · simpa [hjg] using hcalled j
    · intro j hj
      by_cases hjg : j = g
      · subst hjg
        simp
      · simpa [hjg] using hfin j hj
    · intro j
      by_cases hjg : j = g
      · subst hjg
        simp
      · simpa [hjg] using hsound j
  | some k =>
    refine ⟨?_, ?_, ?_, hwords, ?_, ?_, ?_, hintact, hmessage, ?_⟩
    · intro j hj
      by_cases hjg : j = g
      · subst hjg
        simp [habsent j hj] at hpc
      · simp [hjg, habsent j hj]
    · intro j
      by_cases hjg : j = g
      · subst hjg
        simp [Pc.critical]
      · simpa [hjg] using hexcl j
    · intro k0 hk
      have hkg : k0 ≠ g := fun hc => hne (hc ▸ hk)
      simpa [hkg] using hheld k0 hk
    · rw [map_pcs_of_ne _ _ _ _ hne]
      exact hphase
    · intro j
      by_cases hjg : j = g
      · subst hjg
        simp
      · simpa [hjg] using hcalled j
    · intro j hj
      by_cases hjg : j = g
      · subst hjg
        simp
      · simpa [hjg] using hfin j hj
    · intro j
      by_cases hjg : j = g
      · subst hjg
        simp
      · simpa [hjg] using hsound j

theorem inv_step_recheck (w : World L V W R) (n : Nat) (calls : Nat → Call V W R) (l : L)
    (g : Nat) (st : Conc L V W R) (h : Inv w n calls l st) (hpc : st.pcs g = .recheck) :
    Inv w n calls l (stepLive .atomic w calls g st) := by
  obtain ⟨habsent, hexcl, hheld, hwords, hphase, hcalled, hfin, hintact, hmessage, hsound⟩ := h
  have hlog := phase_log w l _ _ hphase
  unfold stepLive
  simp only [hpc]
  have hhold : st.sh.holder = some g := hexcl g (by simp [hpc, Pc.critical])
  rw [hhold] at hphase
  simp only [Option.map_some', hpc] at hphase
  simp only [advance]
  refine ⟨?_, ?_, ?_, hwords, ?_, ?_, ?_, hintact, hmessage, ?_⟩
  · intro j hj
    by_cases hjg : j = g
    · subst hjg
      simp [habsent j hj] at hpc
    · simp [hjg, habsent j hj]
  · intro j
    by_cases hjg : j = g
    · subst hjg
      intro _
      exact hhold
    · simpa [hjg] using hexcl j
  · intro k hk
    by_cases hkg : k = g
    · subst hkg
      simp only [if_true]
      split <;> rfl
    · simpa [hkg] using hheld k hk
  · simp only [hhold, Option.map_some', if_true]
    cases hd : st.sh.done <;> simp_all [Phase]
  · intro j
    by_cases hjg : j = g
    · subst hjg
      simp only [if_true]
      split <;> simp
    · simpa [hjg] using hcalled j
  · intro j hj
    by_cases hjg : j = g
    · subst hjg
      simp only [if_true]
      split <;> simp
    · simpa [hjg] using hfin j hj
  · intro j
    by_cases hjg : j = g
    · subst hjg
      simp only [if_true]
      split <;> simp
    · simpa [hjg] using hsound j

theorem inv_step_env (w : World L V W R) (n : Nat) (calls : Nat → Call V W R) (l : L)
    (g : Nat) (st : Conc L V W R) (h : Inv w n calls l st) (hpc : st.pcs g = .env) :
    Inv w n calls l (stepLive .atomic w calls g st) := by
  obtain ⟨habsent, hexcl, hheld, hwords, hphase, hcalled, hfin, hintact, hmessage, hsound⟩ := h
  have hlog := phase_log w l _ _ hphase
  unfold stepLive
  simp only [hpc]
  have hhold : st.sh.holder = some g := hexcl g (by simp [hpc, Pc.critical])
  rw [hhold] at hphase
  simp only [Option.map_some', hpc] at hphase
  simp only [advance]
  refine ⟨?_, ?_, ?_, hwords, ?_, ?_, ?_, ?_, ?_, ?_⟩
  · intro j hj
    by_cases hjg : j = g
    · subst hjg
      simp [habsent j hj] at hpc
    · simp [hjg, habsent j hj]
  · intro j
    by_cases hjg : j = g
    · subst hjg
      intro _
      exact hhold
    · simpa [hjg] using hexcl j
  · intro k hk
    by_cases hkg : k = g
    · subst hkg
      simp only [if_true]
      rfl
    · simpa [hkg] using hheld k hk
  · simp only [hhold, Option.map_some', if_true]
    cases hd : st.sh.done <;> simp_all [Phase, lazyConfig, Proc.initial]
  · intro j
    by_cases hjg : j = g
    · subst hjg
      simp
    · simpa [hjg] using hcalled j
  · intro j hj hpj
    by_cases hjg : j = g
    · subst hjg
      simp at hpj
    · simp only [if_neg hjg] at hpj
      exact List.mem_append_left _ (hfin j hj hpj)
  · intro j t d c hmem
    rcases List.mem_append.mp hmem with h1 | h1
    · exact hintact j t d c h1
    · simp at h1
  · intro t d hmem
    rcases List.mem_append.mp hmem with h1 | h1
    · exact hmessage t d h1
    · simp at h1
  · intro j
    by_cases hjg : j = g
    · subst hjg
      simp
    · simpa [hjg] using hsound j

theorem inv_step_construct (w : World L V W R) (n : Nat) (calls : Nat → Call V W R) (l : L)
    (hctor : w.newZapLogger [.getenv EnvKeyEnv] (lazyConfig w (Proc.initial : Proc L V W R)) =
      (some l, none))
    (g : Nat) (st : Conc L V W R) (h : Inv w n calls l st) (hpc : st.pcs g = .construct) :
    Inv w n calls l (stepLive .atomic w calls g st) := by
  obtain ⟨habsent, hexcl, hheld, hwords, hphase, hcalled, hfin, hintact, hmessage, hsound⟩ := h
  have hlog := phase_log w l _ _ hphase
  unfold stepLive
  simp only [hpc]
  have hhold : st.sh.holder = some g := hexcl g (by simp [hpc, Pc.critical])
  rw [hhold] at hphase
  simp only [Option.map_some', hpc] at hphase
  cases hd : st.sh.done with
  | true => simp [Phase, hd] at hphase
  | false =>
    simp only [Phase, hd] at hphase
    obtain ⟨hlt, htr, hdc⟩ := hphase
    have hc : w.newZapLogger (st.sh.trace.filterMap GEvent.event) st.sh.DefaultConfig =
        (some l, none) := by
      rw [htr, hdc]
      simpa [GEvent.event] using hctor
    simp only [advance, hc]
    refine ⟨?_, ?_, ?_, hwords, ?_, ?_, ?_, ?_, ?_, ?_⟩
    · intro j hj
      by_cases hjg : j = g
      · subst hjg
        simp [habsent j hj] at hpc
      · simp [hjg, habsent j hj]
    · intro j
      by_cases hjg : j = g
      · subst hjg
        intro _
        exact hhold
      · simpa [hjg] using hexcl j
    · intro k hk
      by_cases hkg : k = g
      · subst hkg
        simp only [if_true]
        rfl
      · simpa [hkg] using hheld k hk
    · simp only [hhold, Option.map_some', if_true]
      simp [Phase, hd, hlt, htr, GEvent.isConstruct, GEvent.isCreated]
    · intro j
      by_cases hjg : j = g
      · subst hjg
        simp
      · simpa [hjg] using hcalled j
    · intro j hj hpj
      by_cases hjg : j = g
      · subst hjg
        simp at hpj
      · simp only [if_neg hjg] at hpj
        exact List.mem_append_left _ (hfin j hj hpj)
    · intro j t d c hmem
      rcases List.mem_append.mp hmem with h1 | h1
      · exact hintact j t d c h1
      · simp at h1
    · intro t d hmem
      rcases List.mem_append.mp hmem with h1 | h1
      · exact hmessage t d h1
      · simp at h1
    · intro j
      by_cases hjg : j = g
      · subst hjg
        simp
      · simpa [hjg] using hsound j

theorem inv_step_store (w : World L V W R) (n : Nat) (calls : Nat → Call V W R) (l : L)
    (g : Nat) (st : Conc L V W R) (x : Option L) (h : Inv w n calls l st) (hpc : st.pcs g = (.store x)) :
    Inv w n calls l (stepLive .atomic w calls g st) := by
  obtain ⟨habsent, hexcl, hheld, hwords, hphase, hcalled, hfin, hintact, hmessage, hsound⟩ := h
  have hlog := phase_log w l _ _ hphase
  unfold stepLive
  simp only [hpc]
  have hhold : st.sh.holder = some g := hexcl g (by simp [hpc, Pc.critical])
  rw [hhold] at hphase
  simp only [Option.map_some', hpc] at hphase
  cases hd : st.sh.done with
  | true => simp [Phase, hd] at hphase
  | false =>
    simp only [Phase, hd] at hphase
    obtain ⟨hx, hlt, hc1, hc2⟩ := hphase
    subst hx
    simp only [advance]
    refine ⟨?_, ?_, ?_, rfl, ?_, ?_, ?_, hintact, hmessage, ?_⟩
    · intro j hj
      by_cases hjg : j = g
      · subst hjg
        simp [habsent j hj] at hpc
      · simp [hjg, habsent j hj]
    · intro j
      by_cases hjg : j = g
      · subst hjg
        intro _
        exact hhold
      · simpa [hjg] using hexcl j
    · intro k hk
      by_cases hkg : k = g
      · subst hkg
        simp only [if_true]
        rfl
      · simpa [hkg] using hheld k hk
    · simp only [hhold, Option.map_some', if_true]
      simp [Phase, hd, hc1, hc2]
    · intro j _
      rfl
    · intro j hj
      by_cases hjg : j = g
      · subst hjg
        simp
      · simpa [hjg] using hfin j hj
    · intro j
      by_cases hjg : j = g
      · subst hjg
        simp
      · simpa [hjg] using hsound j

theorem inv_step_storeData (w : World L V W R) (n : Nat) (calls : Nat → Call V W R) (l : L)
    (g : Nat) (st : Conc L V W R) (x : Option L) (h : Inv w n calls l st) (hpc : st.pcs g = (.storeData x)) :
    Inv w n calls l (stepLive .atomic w calls g st) := by
  obtain ⟨habsent, hexcl, hheld, hwords, hphase, hcalled, hfin, hintact, hmessage, hsound⟩ := h
  have hlog := phase_log w l _ _ hphase
  unfold stepLive
  simp only [hpc]
  have hhold : st.sh.holder = some g := hexcl g (by simp [hpc, Pc.critical])
  rw [hhold] at hphase
  simp only [Option.map_some', hpc] at hphase
  cases hd : st.sh.done <;> simp [Phase, hd] at hphase

theorem inv_step_nestedCheck (w : World L V W R) (n : Nat) (calls : Nat → Call V W R) (l : L)
    (g : Nat) (st : Conc L V W R) (h : Inv w n calls l st) (hpc : st.pcs g = .nestedCheck) :
    Inv w n calls l (stepLive .atomic w calls g st) := by
  obtain ⟨habsent, hexcl, hheld, hwords, hphase, hcalled, hfin, hintact, hmessage, hsound⟩ := h
  have hlog := phase_log w l _ _ hphase
  unfold stepLive
  simp only [hpc]
  have hhold : st.sh.holder = some g := hexcl g (by simp [hpc, Pc.critical])
  rw [hhold] at hphase
  simp only [Option.map_some', hpc] at hphase
  cases hd : st.sh.done with
  | true => simp [Phase, hd] at hphase
  | false =>
    simp only [Phase, hd] at hphase
    obtain ⟨hlt, hc1, hc2⟩ := hphase
    simp only [advance, hlt, Option.isNone_some, Bool.false_eq_true, if_false]
    refine ⟨?_, ?_, ?_, hwords, ?_, ?_, ?_, hintact, hmessage, ?_⟩
    · intro j hj
      by_cases hjg : j = g
      · subst hjg
        simp [habsent j hj] at hpc
      · simp [hjg, habsent j hj]
    · intro j
      by_cases hjg : j = g
      · subst hjg
        intro _
        exact hhold
      · simpa [hjg] using hexcl j
    · intro k hk
      by_cases hkg : k = g
      · subst hkg
        simp only [if_true]
        rfl
      · simpa [hkg] using hheld k hk
    · simp only [hhold, Option.map_some', if_true]
      simp [Phase, hd, hlt, hc1, hc2]
    · intro j
      by_cases hjg : j = g
      · subst hjg
        simp
      · simpa [hjg] using hcalled j
    · intro j hj
      by_cases hjg : j = g
      · subst hjg
        simp
      · simpa [hjg] using hfin j hj
    · intro j
      by_cases hjg : j = g
      · subst hjg
        simp
      · simpa [hjg] using hsound j

theorem inv_step_selfLock (w : World L V W R) (n : Nat) (calls : Nat → Call V W R) (l : L)
    (g : Nat) (st : Conc L V W R) (h : Inv w n calls l st) (hpc : st.pcs g = .selfLock) :
    Inv w n calls l (stepLive .atomic w calls g st) := by
  obtain ⟨habsent, hexcl, hheld, hwords, hphase, hcalled, hfin, hintact, hmessage, hsound⟩ := h
  have hlog := phase_log w l _ _ hphase
  unfold stepLive
  simp only [hpc]
  have hhold : st.sh.holder = some g := hexcl g (by simp [hpc, Pc.critical])
  rw [hhold] at hphase
  simp only [Option.map_some', hpc] at hphase
  cases hd : st.sh.done <;> simp [Phase, hd] at hphase

theorem inv_step_nestedCall (w : World L V W R) (n : Nat) (calls : Nat → Call V W R) (l : L)
    (g : Nat) (st : Conc L V W R) (h : Inv w n calls l st) (hpc : st.pcs g = .nestedCall) :
    Inv w n calls l (stepLive .atomic w calls g st) := by
  obtain ⟨habsent, hexcl, hheld, hwords, hphase, hcalled, hfin, hintact, hmessage, hsound⟩ := h
  have hlog := phase_log w l _ _ hphase
  unfold stepLive
  simp only [hpc]
  have hhold : st.sh.holder = some g := hexcl g (by simp [hpc, Pc.critical])
  rw [hhold] at hphase
  simp only [Option.map_some', hpc] at hphase
  cases hd : st.sh.done with
  | true => simp [Phase, hd] at hphase
  | false =>
    simp only [Phase, hd] at hphase
    obtain ⟨hlt, hc1, hc2⟩ := hphase
    have hld : st.sh.logData = some l := by rw [hwords, hlt]
    simp only [advance, hlt, hld, Option.isSome_some, Bool.and_self, if_true]
    refine ⟨?_, ?_, ?_, rfl, ?_, ?_, ?_, ?_, ?_, ?_⟩
    · intro j hj
      by_cases hjg : j = g
      · subst hjg
        simp [habsent j hj] at hpc
      · simp [hjg, habsent j hj]
    · intro j
      by_cases hjg : j = g
      · subst hjg
        intro _
        exact hhold
      · simpa [hjg] using hexcl j
    · intro k hk
      by_cases hkg : k = g
      · subst hkg
        simp only [if_true]
        rfl
      · simpa [hkg] using hheld k hk
    · simp only [hhold, Option.map_some', if_true]
      simp [Phase, hd, hc1, hc2, GEvent.isConstruct, GEvent.isCreated]
    · intro j _
      rfl
    · intro j hj hpj
      by_cases hjg : j = g
      · subst hjg
        simp at hpj
      · simp only [if_neg hjg] at hpj
        exact List.mem_append_left _ (hfin j hj hpj)
    · intro j t d c hmem
      rcases List.mem_append.mp hmem with h1 | h1
      · exact hintact j t d c h1
      · simp at h1
    · intro t d hmem
      rcases List.mem_append.mp hmem with h1 | h1
      · exact hmessage t d h1
      · simp only [List.mem_singleton, GEvent.created.injEq] at h1
        exact ⟨h1.1, h1.2⟩
    · intro j
      by_cases hjg : j = g
      · subst hjg
        simp
      · simpa [hjg] using hsound j

theorem inv_step_setDone (w : World L V W R) (n : Nat) (calls : Nat → Call V W R) (l : L)
    (g : Nat) (st : Conc L V W R) (h : Inv w n calls l st) (hpc : st.pcs g = .setDone) :
    Inv w n calls l (stepLive .atomic w calls g st) := by
  obtain ⟨habsent, hexcl, hheld, hwords, hphase, hcalled, hfin, hintact, hmessage, hsound⟩ := h
  have hlog := phase_log w l _ _ hphase
  unfold stepLive
  simp only [hpc]
  have hhold : st.sh.holder = some g := hexcl g (by simp [hpc, Pc.critical])
  rw [hhold] at hphase
  simp only [Option.map_some', hpc] at hphase
  cases hd : st.sh.done with
  | true => simp [Phase, hd] at hphase
  | false =>
    simp only [Phase, hd] at hphase
    obtain ⟨hlt, hc1, hc2⟩ := hphase
    simp only [advance]
    refine ⟨?_, ?_, ?_, hwords, ?_, ?_, ?_, hintact, hmessage, ?_⟩
    · intro j hj
      by_cases hjg : j = g
      · subst hjg
        simp [habsent j hj] at hpc
      · simp [hjg, habsent j hj]
    · intro j
      by_cases hjg : j = g
      · subst hjg
        intro _
        exact hhold
      · simpa [hjg] using hexcl j
    · intro k hk
      by_cases hkg : k = g
      · subst hkg
        simp only [if_true]
        rfl
      · simpa [hkg] using hheld k hk
    · simp only [hhold, Option.map_some', if_true]
      simp [Phase, hlt, hc1, hc2]
    · intro j
      by_cases hjg : j = g
      · subst hjg
        simp
      · simpa [hjg] using hcalled j
    · intro j hj
      by_cases hjg : j = g
      · subst hjg
        simp
      · simpa [hjg] using hfin j hj
    · intro j
      by_cases hjg : j = g
      · subst hjg
        simp
      · simpa [hjg] using hsound j

theorem inv_step_unlock (w : World L V W R) (n : Nat) (calls : Nat → Call V W R) (l : L)
    (g : Nat) (st : Conc L V W R) (h : Inv w n calls l st) (hpc : st.pcs g = .unlock) :
    Inv w n calls l (stepLive .atomic w calls g st) := by
  obtain ⟨habsent, hexcl, hheld, hwords, hphase, hcalled, hfin, hintact, hmessage, hsound⟩ := h
  have hlog := phase_log w l _ _ hphase
  unfold stepLive
  simp only [hpc]
  have hhold : st.sh.holder = some g := hexcl g (by simp [hpc, Pc.critical])
  rw [hhold] at hphase
  simp only [Option.map_some', hpc] at hphase
  cases hd : st.sh.done with
  | false => simp [Phase, hd] at hphase
  | true =>
    simp only [Phase, hd] at hphase
    obtain ⟨hlt, hc1, hc2⟩ := hphase
    simp only [advance]
    refine ⟨?_, ?_, ?_, hwords, ?_, ?_, ?_, hintact, hmessage, ?_⟩
    · intro j hj
      by_cases hjg : j = g
      · subst hjg
        simp [habsent j hj] at hpc
      · simp [hjg, habsent j hj]
    · intro j
      by_cases hjg : j = g
      · subst hjg
        simp [Pc.critical]
      · intro hc
        simp only [if_neg hjg] at hc
        have := hexcl j hc
        rw [hhold] at this
        exact absurd (Option.some.inj this).symm hjg
    · intro k hk
      simp at hk
    · simp [Phase, hd, hlt, hc1, hc2]
    · intro j _
      exact hlt
    · intro j hj
      by_cases hjg : j = g
      · subst hjg
        simp
      · simpa [hjg] using hfin j hj
    · intro j
      by_cases hjg : j = g
      · subst hjg
        simp
      · simpa [hjg] using hsound j

theorem inv_step_call (w : World L V W R) (n : Nat) (calls : Nat → Call V W R) (l : L)
    (g : Nat) (st : Conc L V W R) (h : Inv w n calls l st) (hpc : st.pcs g = .call) :
    Inv w n calls l (stepLive .atomic w calls g st) := by
  obtain ⟨habsent, hexcl, hheld, hwords, hphase, hcalled, hfin, hintact, hmessage, hsound⟩ := h
  have hlog := phase_log w l _ _ hphase
  unfold stepLive
  simp only [hpc]
  have hne : st.sh.holder ≠ some g := fun hc => by
    have := hheld g hc
    simp [hpc, Pc.critical] at this
  have hlt : st.sh.logType = some l := hcalled g hpc
  have hld : st.sh.logData = some l := by rw [hwords, hlt]
  have hboth : (st.sh.logType.isSome && st.sh.logData.isSome) = true := by simp [hlt, hld]
  have hph : Phase w l { st.sh with trace := st.sh.trace ++
      [.delegated g st.sh.logType st.sh.logData (calls g)] } (st.sh.holder.map st.pcs) :=
    phase_delegated w l st.sh _ g _ _ (calls g) hphase hlt
  cases hcomp : (calls g).completion with
  | returns =>
    simp only [advance, afterCall, hboth, if_true, hcomp]
    refine ⟨?_, ?_, ?_, hwords, ?_, ?_, ?_, ?_, ?_, ?_⟩
    · intro j hj
      by_cases hjg : j = g
      · subst hjg
        simp [habsent j hj] at hpc
      · simp [hjg, habsent j hj]
    · intro j
      by_cases hjg : j = g
      · subst hjg
        simp [Pc.critical]
      · simpa [hjg] using hexcl j
    · intro k hk
      have hkg : k ≠ g := fun hc => hne (hc ▸ hk)
      simpa [hkg] using hheld k hk
    · rw [map_pcs_of_ne _ _ _ _ hne]
      exact hph
    · intro j _
      exact hlt
    · intro j hj hpj
      by_cases hjg : j = g
      · subst hjg
        simp [hlt, hld]
      · simp only [if_neg hjg] at hpj
        exact List.mem_append_left _ (hfin j hj hpj)
    · intro j t d c hmem
      rcases List.mem_append.mp hmem with h1 | h1
      · exact hintact j t d c h1
      · simp only [List.mem_singleton, GEvent.delegated.injEq] at h1
        obtain ⟨h1, h2, h3, h4⟩ := h1
        subst h1 h4
        exact ⟨h2.trans hlt, h3.trans hld, rfl⟩
    · intro t d hmem
      rcases List.mem_append.mp hmem with h1 | h1
      · exact hmessage t d h1
      · simp at h1
    · intro j
      by_cases hjg : j = g
      · subst hjg
        simp
      · simpa [hjg] using hsound j
  | exits =>
    simp only [advance, afterCall, hboth, if_true, hcomp]
    refine ⟨?_, ?_, ?_, hwords, ?_, ?_, ?_, ?_, ?_, ?_⟩
    · intro j hj
      by_cases hjg : j = g
      · subst hjg
        simp [habsent j hj] at hpc
      · simp [hjg, habsent j hj]
    · intro j
      by_cases hjg : j = g
      · subst hjg
        simp [Pc.critical]
      · simpa [hjg] using hexcl j
    · intro k hk
      have hkg : k ≠ g := fun hc => hne (hc ▸ hk)
      simpa [hkg] using hheld k hk
    · rw [map_pcs_of_ne _ _ _ _ hne]
      exact hph
    · intro j _
      exact hlt
    · intro j hj hpj
      by_cases hjg : j = g
      · subst hjg
        simp [hlt, hld]
      · simp only [if_neg hjg] at hpj
        exact List.mem_append_left _ (hfin j hj hpj)
    · intro j t d c hmem
      rcases List.mem_append.mp hmem with h1 | h1
      · exact hintact j t d c h1
      · simp only [List.mem_singleton, GEvent.delegated.injEq] at h1
        obtain ⟨h1, h2, h3, h4⟩ := h1
        subst h1 h4
        exact ⟨h2.trans hlt, h3.trans hld, rfl⟩
    · intro t d hmem
      rcases List.mem_append.mp hmem with h1 | h1
      · exact hmessage t d h1
      · simp at h1
    · intro j
      by_cases hjg : j = g
      · subst hjg
        simp
      · simpa [hjg] using hsound j
  | panics =>
    simp only [advance, afterCall, hboth, if_true, hcomp]
    refine ⟨?_, ?_, ?_, hwords, ?_, ?_, ?_, ?_, ?_, ?_⟩
    · intro j hj
      by_cases hjg : j = g
      · subst hjg
        simp [habsent j hj] at hpc
      · simp [hjg, habsent j hj]
    · intro j
      by_cases hjg : j = g
      · subst hjg
        simp [Pc.critical]
      · simpa [hjg] using hexcl j
    · intro k hk
      have hkg : k ≠ g := fun hc => hne (hc ▸ hk)
      simpa [hkg] using hheld k hk
    · rw [map_pcs_of_ne _ _ _ _ hne]
      exact hph
    · intro j _
      exact hlt
    · intro j hj hpj
      by_cases hjg : j = g
      · subst hjg
        simp [hlt, hld]
      · simp only [if_neg hjg] at hpj
        exact List.mem_append_left _ (hfin j hj hpj)
    · intro j t d c hmem
      rcases List.mem_append.mp hmem with h1 | h1
      · exact hintact j t d c h1
      · simp only [List.mem_singleton, GEvent.delegated.injEq] at h1
        obtain ⟨h1, h2, h3, h4⟩ := h1
        subst h1 h4
        exact ⟨h2.trans hlt, h3.trans hld, rfl⟩
    · intro t d hmem
      rcases List.mem_append.mp hmem with h1 | h1
      · exact hmessage t d h1
      · simp at h1
    · intro j
      by_cases hjg : j = g
      · subst hjg
        simp
      · simpa [hjg] using hsound j

theorem inv_step_faulted (w : World L V W R) (n : Nat) (calls : Nat → Call V W R) (l : L)
    (g : Nat) (st : Conc L V W R) (h : Inv w n calls l st) (hpc : st.pcs g = .faulted) :
    Inv w n calls l (stepLive .atomic w calls g st) := by
  obtain ⟨habsent, hexcl, hheld, hwords, hphase, hcalled, hfin, hintact, hmessage, hsound⟩ := h
  have hlog := phase_log w l _ _ hphase
  unfold stepLive
  simp only [hpc]
  exact absurd hpc (hsound g)

theorem inv_step_finished (w : World L V W R) (n : Nat) (calls : Nat → Call V W R) (l : L)
    (g : Nat) (st : Conc L V W R) (h : Inv w n calls l st) (hpc : st.pcs g = .finished) :
    Inv w n calls l (stepLive .atomic w calls g st) := by
  obtain ⟨habsent, hexcl, hheld, hwords, hphase, hcalled, hfin, hintact, hmessage, hsound⟩ := h
  have hlog := phase_log w l _ _ hphase
  unfold stepLive
  simp only [hpc]
  have hsame : (fun j => if j = g then (advance LogStore.atomic w g (calls g) st.sh
      Pc.finished).2 else st.pcs j) = st.pcs := by
    funext j
    by_cases hjg : j = g
    · subst hjg
      simp [advance, hpc]
    · simp [hjg]
  rw [hsame]
  exact ⟨habsent, hexcl, hheld, hwords, hphase, hcalled, hfin, hintact, hmessage, hsound⟩

/-- One step of any goroutine keeps the invariant. -/
theorem inv_step (w : World L V W R) (n : Nat) (calls : Nat → Call V W R) (l : L)
    (hctor : w.newZapLogger [.getenv EnvKeyEnv] (lazyConfig w (Proc.initial : Proc L V W R)) =
      (some l, none))
    (g : Nat) (st : Conc L V W R) (h : Inv w n calls l st) :
    Inv w n calls l (cstep .atomic w calls g st) := by
  unfold cstep
  by_cases hh : st.sh.halted = true
  · rw [if_pos hh]
    exact h
  rw [if_neg hh]
  cases hpc : st.pcs g with
  | check => exact inv_step_check w n calls l g st h hpc
  | onceLoad => exact inv_step_onceLoad w n calls l g st h hpc
  | lock => exact inv_step_lock w n calls l g st h hpc
  | recheck => exact inv_step_recheck w n calls l g st h hpc
  | env => exact inv_step_env w n calls l g st h hpc
  | construct => exact inv_step_construct w n calls l hctor g st h hpc
  | store x => exact inv_step_store w n calls l g st x h hpc
  | storeData x => exact inv_step_storeData w n calls l g st x h hpc
  | nestedCheck => exact inv_step_nestedCheck w n calls l g st h hpc
  | selfLock => exact inv_step_selfLock w n calls l g st h hpc
  | nestedCall => exact inv_step_nestedCall w n calls l g st h hpc
  | setDone => exact inv_step_setDone w n calls l g st h hpc
  | unlock => exact inv_step_unlock w n calls l g st h hpc
  | call => exact inv_step_call w n calls l g st h hpc
  | faulted => exact inv_step_faulted w n calls l g st h hpc
  | finished => exact inv_step_finished w n calls l g st h hpc

/-- The invariant holds after every schedule. -/
theorem inv_crun (w : World L V W R) (n : Nat) (calls : Nat → Call V W R) (l : L)
    (hctor : w.newZapLogger [.getenv EnvKeyEnv] (lazyConfig w (Proc.initial : Proc L V W R)) =
      (some l, none))
    (sched : List Nat) :
    ∀ st : Conc L V W R, Inv w n calls l st → Inv w n calls l (crun .atomic w calls sched st) := by
  induction sched with
  | nil => exact fun st h => h
  | cons g gs ih => exact fun st h => ih _ (inv_step w n calls l hctor g st h)

theorem phase_counts (w : World L V W R) (l : L) (sh : Shared L V W R) (hp : Option (Pc L))
    (h : Phase w l sh hp) :
    sh.trace.countP GEvent.isConstruct ≤ 1 ∧ sh.trace.countP GEvent.isCreated ≤ 1 := by
  unfold Phase at h
  split at h
  all_goals first
    | exact absurd h id
    | (obtain ⟨_, h1, h2⟩ := h; omega)
    | (obtain ⟨_, h1, _⟩ := h; rw [h1]; simp [GEvent.isConstruct, GEvent.isCreated])

/-- When every goroutine is through, the lazy start has happened exactly once. -/
theorem inv_complete (w : World L V W R) (n : Nat) (calls : Nat → Call V W R) (l : L)
    (st : Conc L V W R) (h : Inv w n calls l st) (hn : 1 ≤ n)
    (hall : ∀ g, g < n → st.pcs g = .finished) :
    st.sh.trace.countP GEvent.isConstruct = 1 ∧ st.sh.trace.countP GEvent.isCreated = 1 := by
  have hfinished : ∀ g, st.pcs g = .finished := fun g => by
    by_cases hg : g < n
    · exact hall g hg
    · exact h.absent g (Nat.le_of_not_lt hg)
  have hholder : st.sh.holder = none := by
    cases hh : st.sh.holder with
    | none => rfl
    | some k =>
      have := h.held k hh
      simp [hfinished k, Pc.critical] at this
  have hmem := h.fin 0 (by omega) (hfinished 0)
  have hphase := h.phase
  rw [hholder] at hphase
  simp only [Option.map_none'] at hphase
  unfold Phase at hphase
  cases hd : st.sh.done with
  | true =>
    simp only [hd] at hphase
    exact ⟨hphase.2.1, hphase.2.2⟩
  | false =>
    simp only [hd] at hphase
    rw [hphase.2.1] at hmem
    simp at hmem

/-- Goroutines, with `log = logger` as one store: if the constructor answers the
lazy start with a logger `l`, then under every schedule of `n` goroutines that
each call a leveled function with nothing run before, the backing constructor
is called at most once, "Logger created successfuly" is logged at most once and
on `l`, every method call of a caller goes through `log` holding `l` in both
words, and no call is made with a nil word.  When all `n ≥ 1` goroutines are
through, there was exactly one construction and exactly one such message, and
the call of every goroutine was handed to `l`. -/
theorem lazy_start_once_atomic (w : World L V W R) (n : Nat) (calls : Nat → Call V W R)
    (l : L) (sched : List Nat) (hn : 1 ≤ n)
    (hctor : w.newZapLogger [.getenv EnvKeyEnv] (lazyConfig w (Proc.initial : Proc L V W R)) =
      (some l, none)) :
    ((crun .atomic w calls sched (Conc.start n)).sh.trace.countP GEvent.isConstruct ≤ 1 ∧
     (crun .atomic w calls sched (Conc.start n)).sh.trace.countP GEvent.isCreated ≤ 1) ∧
    (∀ g t d c, GEvent.delegated g t d c ∈ (crun .atomic w calls sched (Conc.start n)).sh.trace →
      t = some l ∧ d = some l ∧ c = calls g) ∧
    (∀ t d, GEvent.created t d ∈ (crun .atomic w calls sched (Conc.start n)).sh.trace →
      t = some l ∧ d = some l) ∧
    (∀ g, (crun .atomic w calls sched (Conc.start n)).pcs g ≠ .faulted) ∧
    ((∀ g, g < n → (crun .atomic w calls sched (Conc.start n)).pcs g = .finished) →
      (crun .atomic w calls sched (Conc.start n)).sh.trace.countP GEvent.isConstruct = 1 ∧
      (crun .atomic w calls sched (Conc.start n)).sh.trace.countP GEvent.isCreated = 1 ∧
      ∀ g, g < n → GEvent.delegated g (some l) (some l) (calls g) ∈
        (crun .atomic w calls sched (Conc.start n)).sh.trace) := by
  have h := inv_crun w n calls l hctor sched _ (inv_start w n calls l)
  refine ⟨phase_counts w l _ _ h.phase, h.intact, h.message, h.sound, ?_⟩
  intro hall
  have hc := inv_complete w n calls l _ h hn hall
  exact ⟨hc.1, hc.2, fun g hg => h.fin g hg (hall g hg)⟩

theorem lazy_start_once_atomic_witness :
    1 ≤ 2 ∧
    (demoWorld none).newZapLogger [.getenv EnvKeyEnv]
      (lazyConfig (demoWorld none) (Proc.initial : Proc Nat Nat Nat Nat)) = (some 0, none) ∧
    (∀ g, g < 2 →
      (crun .atomic (demoWorld none) demoCalls demoFair (Conc.start 2)).pcs g = .finished) ∧
    (crun .atomic (demoWorld none) demoCalls demoFair (Conc.start 2)).sh.trace.countP
      GEvent.isConstruct = 1 ∧
    (crun .atomic (demoWorld none) demoCalls demoFair (Conc.start 2)).sh.trace.countP
      GEvent.isCreated = 1 ∧
    ∀ g, g < 2 → GEvent.delegated g (some 0) (some 0) (demoCalls g) ∈
      (crun .atomic (demoWorld none) demoCalls demoFair (Conc.start 2)).sh.trace :=
  ⟨by decide, by decide, by decide,
    (lazy_start_once_atomic (demoWorld none) 2 demoCalls 0 demoFair (by decide)
      (by decide)).2.2.2.2 (by decide)⟩

/-- C10, at the input where the code fails: two goroutines call `Infof` with
nothing run before, the constructor succeeds with logger 0, and `log = logger`
writes the type word and the data word of `log` in two steps.  Goroutine 0 runs
its lazy start up to the store of the type word; goroutine 1 then tests
`log == nil`, finds the type word set, skips `initLogger` without waiting on the
Once, and calls `Infof` through a `log` whose data word is still nil: it did not
observe the constructed singleton, and the call faults.  With `log = logger` as
one store the same schedule hands the call of goroutine 1 to logger 0. -/
theorem lazy_start_torn_log :
    (crun .wordwise (demoWorld none) demoCalls demoRace (Conc.start 2)).sh.trace =
      [.getenv "env", .construct DefaultConfig,
       .delegated 1 (some 0) none (.Infof "request %d" [1])] ∧
    (crun .wordwise (demoWorld none) demoCalls demoRace (Conc.start 2)).pcs 1 = .faulted ∧
    (crun .wordwise (demoWorld none) demoCalls demoRace (Conc.start 2)).pcs 0 =
      .storeData (some 0) ∧
    (crun .wordwise (demoWorld none) demoCalls demoRace (Conc.start 2)).sh.logType = some 0 ∧
    (crun .wordwise (demoWorld none) demoCalls demoRace (Conc.start 2)).sh.logData = none ∧
    (crun .wordwise (demoWorld none) demoCalls demoRace (Conc.start 2)).sh.done = false ∧
    (crun .atomic (demoWorld none) demoCalls demoRace (Conc.start 2)).sh.trace =
      [.getenv "env", .construct DefaultConfig,
       .delegated 1 (some 0) (some 0) (.Infof "request %d" [1])] ∧
    (crun .atomic (demoWorld none) demoCalls demoRace (Conc.start 2)).pcs 1 = .finished := by
  decide

end logger
